import Mathlib

/-!
Verification development for the TFWR IntelliSense engine
(`src/TFWRIntelliSense.tsx`): a catalog parser (`parseBuiltins`), a
per-document symbol indexer (`buildSymbolIndex`), a debounced index
manager, and three query providers (completion, hover, signature help).

The embedding is shallow: strings are `List Char` / `String`, JavaScript
`Record` objects are association lists whose `set` updates in place and
otherwise appends (this reproduces JS insertion-order iteration for
identifier keys), and each regular expression of the source is hand
compiled into a deterministic matcher.  Every regex in the source is
either backtracking-free (each greedy piece is followed by a character
excluded from its class) or its backtracking is resolved explicitly in a
comment at the matcher.
-/

namespace TFWR

/-- JS `\w` character class: `[A-Za-z0-9_]`. -/
def isWordChar (c : Char) : Bool :=
  c.isAlpha || c.isDigit || c = '_'

/-- First character of an identifier: `[A-Za-z_]`. -/
def isIdentStart (c : Char) : Bool :=
  c.isAlpha || c = '_'

/-- JS `\s` restricted to the ASCII whitespace characters (the unicode
space characters never occur in the documents considered here). -/
def isSpaceJS (c : Char) : Bool :=
  c = ' ' || c = '\t' || c = '\n' || c = '\x0d' || c = '\x0b' || c = '\x0c'

/-- Line terminators recognized by the JS multiline anchors `^`/`$`
(` `/` ` omitted, as above). -/
def isLineTerm (c : Char) : Bool :=
  c = '\n' || c = '\x0d'

/-- JS string `trimStart`. -/
def trimStartJS (cs : List Char) : List Char :=
  cs.dropWhile isSpaceJS

/-- JS string `trimEnd`. -/
def trimEndJS (cs : List Char) : List Char :=
  (cs.reverse.dropWhile isSpaceJS).reverse

/-- JS string `trim`. -/
def trimJS (cs : List Char) : List Char :=
  trimEndJS (trimStartJS cs)

/-- JS `split(",")`: splits at every comma, keeping empty fragments. -/
def splitCommas : List Char → List (List Char)
  | [] => [[]]
  | c :: cs =>
    let r := splitCommas cs
    if c = ',' then [] :: r
    else match r with
      | [] => [[c]]
      | h :: t => (c :: h) :: t

/-- A JS `Record` / `Map` with string keys: an association list whose
`rset` overwrites the value of an existing key in place and otherwise
appends, matching JS insertion-order enumeration. -/
abbrev RMap (α : Type) : Type := List (String × α)

def rempty {α : Type} : RMap α := []

def rset {α : Type} : RMap α → String → α → RMap α
  | [], k, v => [(k, v)]
  | p :: rest, k, v =>
    if p.1 = k then (k, v) :: rest else p :: rset rest k v

/-- JS property read (`m[k]`), prototype chain ignored. -/
def rfind? {α : Type} : RMap α → String → Option α
  | [], _ => none
  | p :: rest, k => if p.1 = k then some p.2 else rfind? rest k

/-- `Object.keys`. -/
def rkeys {α : Type} (m : RMap α) : List String :=
  m.map (·.1)

/-- Lower-casing for the source's `toLowerCase()` comparisons
(identifiers are ASCII). -/
def lowerStr (s : String) : String :=
  String.mk (s.data.map Char.toLower)

/-- Case-insensitive key search: `Object.keys(m).find(k => k.toLowerCase() === x.toLowerCase())`. -/
def rfindCI {α : Type} : RMap α → String → Option String
  | [], _ => none
  | p :: rest, k => if lowerStr p.1 = lowerStr k then some p.1 else rfindCI rest k

/-- Case-insensitive entry search: `Object.entries(m).find(([k]) => k.toLowerCase() === x.toLowerCase())`. -/
def rfindEntryCI {α : Type} : RMap α → String → Option (String × α)
  | [], _ => none
  | p :: rest, k => if lowerStr p.1 = lowerStr k then some p else rfindEntryCI rest k

/-- JS `array.map((x, idx) => f(idx, x))` with an explicit start index. -/
def mapWithIdx {α β : Type} (f : Nat → α → β) : Nat → List α → List β
  | _, [] => []
  | i, a :: as => f i a :: mapWithIdx f (i + 1) as

/-- `idx.toString()`: decimal representation. -/
def natStr (n : Nat) : String :=
  Nat.repr n

/-- JS `s.padStart(3, "0")`. -/
def padStart3 (s : String) : String :=
  if s.length < 3 then String.mk (List.replicate (3 - s.length) '0' ++ s.data) else s

/-- Strict lexicographic order on UTF-16 code units restricted to ASCII:
the order the host editor uses to sort `sortText` keys. -/
def lexLt : List Char → List Char → Bool
  | [], [] => false
  | [], _ :: _ => true
  | _ :: _, [] => false
  | a :: as, b :: bs => a < b || (a = b && lexLt as bs)

/-! ### Parsing primitives for the hand-compiled regular expressions -/

/-- Consume one expected character. -/
def pChar (c : Char) : List Char → Option (List Char)
  | x :: xs => if x = c then some xs else none
  | [] => none

/-- Consume an expected literal sequence. -/
def pLit : List Char → List Char → Option (List Char)
  | [], cs => some cs
  | l :: ls, c :: cs => if c = l then pLit ls cs else none
  | _ :: _, [] => none

/-- `[A-Za-z_][A-Za-z0-9_]*`, greedy.  In every pattern of the source an
identifier is followed by a non-word character, so the greedy run is
exact and no backtracking arises. -/
def pIdent : List Char → Option (List Char × List Char)
  | c :: cs =>
    if isIdentStart c then some (c :: cs.takeWhile isWordChar, cs.dropWhile isWordChar)
    else none
  | [] => none

/-- `\s*`, greedy; in the source it is always followed by a non-space
character, so no backtracking arises. -/
def pWs (cs : List Char) : List Char := cs.dropWhile isSpaceJS

/-- `\s+`. -/
def pWs1 : List Char → Option (List Char)
  | c :: cs => if isSpaceJS c then some (pWs cs) else none
  | [] => none

/-- The trailing `\s*$` of the assignment patterns (multiline `$`): the
greedy `\s*` backtracks to the largest number of consumed whitespace
characters after which `$` holds, i.e. the end of input or a position
whose next character is a line terminator.  Scanning left to right, that
is the last line terminator inside the whitespace run (the accumulator
`best` remembers it), or the end of input if the run reaches it.
Returns the remainder after the matched portion. -/
def pWsDollar : List Char → Option (List Char) → Option (List Char)
  | [], _ => some []
  | c :: cs, best =>
    if isSpaceJS c then
      pWsDollar cs (if isLineTerm c then some (c :: cs) else best)
    else
      best

/-- A keyword alternative followed by `\b`: the next character must not
be a word character.  The alternatives `list|dict|set|str` are pairwise
non-prefixes of one another, so alternation order is irrelevant. -/
def pKw (kw : List Char) (cs : List Char) : Option (List Char) :=
  match pLit kw cs with
  | some rest =>
    match rest with
    | [] => some []
    | c :: _ => if isWordChar c then none else some rest
  | none => none

/-! ### The document indexer `buildSymbolIndex` (source lines 135-194) -/

inductive CoreType where
  | list
  | dict
  | set
  | str
  | unknown
  deriving DecidableEq, Repr

structure LocalFn where
  params : List String
  label : String
  deriving DecidableEq, Repr

structure SymbolIndex where
  vars : RMap CoreType
  functions : RMap LocalFn
  deriving DecidableEq, Repr

/-- `/^([A-Za-z_][A-Za-z0-9_]*)\s*:\s*(list|dict|set|str)\b/gm`
(annotation rule). -/
def pAnnot (cs : List Char) : Option ((String × CoreType) × List Char) :=
  match pIdent cs with
  | none => none
  | some (id, r1) =>
    match pChar ':' (pWs r1) with
    | none => none
    | some r2 =>
      let r3 := pWs r2
      match pKw ("list".data) r3 with
      | some r4 => some ((String.mk id, CoreType.list), r4)
      | none =>
        match pKw ("dict".data) r3 with
        | some r4 => some ((String.mk id, CoreType.dict), r4)
        | none =>
          match pKw ("set".data) r3 with
          | some r4 => some ((String.mk id, CoreType.set), r4)
          | none =>
            match pKw ("str".data) r3 with
            | some r4 => some ((String.mk id, CoreType.str), r4)
            | none => none

/-- The shared head `^([A-Za-z_][A-Za-z0-9_]*)\s*=\s*` of the assignment
patterns. -/
def pAssignHead (cs : List Char) : Option (String × List Char) :=
  match pIdent cs with
  | none => none
  | some (id, r1) =>
    match pChar '=' (pWs r1) with
    | none => none
    | some r2 => some (String.mk id, pWs r2)

/-- `/^ID\s*=\s*\[\s*\]\s*$/gm`. -/
def pListEmpty (cs : List Char) : Option (String × List Char) :=
  match pAssignHead cs with
  | none => none
  | some (id, r) =>
    match pChar '[' r with
    | none => none
    | some r1 =>
      match pChar ']' (pWs r1) with
      | none => none
      | some r2 => (pWsDollar r2 none).map (fun rest => (id, rest))

/-- `/^ID\s*=\s*\[[^\]]*\]\s*$/gm`.  The class `[^\]]` excludes only
`]` (it includes newlines), so the greedy run stops exactly at the first
`]` and no backtracking arises. -/
def pListNonempty (cs : List Char) : Option (String × List Char) :=
  match pAssignHead cs with
  | none => none
  | some (id, r) =>
    match pChar '[' r with
    | none => none
    | some r1 =>
      match pChar ']' (r1.dropWhile (fun c => c ≠ ']')) with
      | none => none
      | some r2 => (pWsDollar r2 none).map (fun rest => (id, rest))

/-- A constructor-call tail `kw\s*\(` (as in `list\s*\(`); the match ends
at the opening parenthesis. -/
def pCtorTail (kw : List Char) (cs : List Char) : Option (List Char) :=
  match pLit kw cs with
  | none => none
  | some r => pChar '(' (pWs r)

/-- `/^ID\s*=\s*list\s*\(/gm` and the analogous `dict`/`set`/`str`
constructor patterns. -/
def pCtorAssign (kw : List Char) (cs : List Char) : Option (String × List Char) :=
  match pAssignHead cs with
  | none => none
  | some (id, r) => (pCtorTail kw r).map (fun rest => (id, rest))

/-- `/^ID\s*=\s*\{\s*\}\s*$/gm` (empty dict literal). -/
def pDictEmpty (cs : List Char) : Option (String × List Char) :=
  match pAssignHead cs with
  | none => none
  | some (id, r) =>
    match pChar '\x7b' r with
    | none => none
    | some r1 =>
      match pChar '\x7d' (pWs r1) with
      | none => none
      | some r2 => (pWsDollar r2 none).map (fun rest => (id, rest))

/-- `/^ID\s*=\s*\{[^}]*:[^}]*\}\s*$/gm`.  `[^}]*` runs to the first `}`;
the backtracking of `[^}]*:[^}]*` succeeds exactly when a `:` occurs
before that first `}`, which the `contains` test below captures. -/
def pDictNonempty (cs : List Char) : Option (String × List Char) :=
  match pAssignHead cs with
  | none => none
  | some (id, r) =>
    match pChar '\x7b' r with
    | none => none
    | some r1 =>
      if (r1.takeWhile (fun c => c ≠ '\x7d')).contains ':' then
        match pChar '\x7d' (r1.dropWhile (fun c => c ≠ '\x7d')) with
        | none => none
        | some r2 => (pWsDollar r2 none).map (fun rest => (id, rest))
      else none

/-- `/^ID\s*=\s*("[^"]*"|'[^']*')\s*$/gm` (string literal). -/
def pStrLit (cs : List Char) : Option (String × List Char) :=
  match pAssignHead cs with
  | none => none
  | some (id, r) =>
    match r with
    | '\x22' :: r1 =>
      match pChar '\x22' (r1.dropWhile (fun c => c ≠ '\x22')) with
      | none => none
      | some r2 => (pWsDollar r2 none).map (fun rest => (id, rest))
    | '\x27' :: r1 =>
      match pChar '\x27' (r1.dropWhile (fun c => c ≠ '\x27')) with
      | none => none
      | some r2 => (pWsDollar r2 none).map (fun rest => (id, rest))
    | _ => none

/-- `/^def\s+([A-Za-z_][A-Za-z0-9_]*)\s*\(([^)]*)\)\s*:/gm` (local
function rule of `buildSymbolIndex`). -/
def pDefIndex (cs : List Char) : Option ((String × String) × List Char) :=
  match pLit ("def".data) cs with
  | none => none
  | some r0 =>
    match pWs1 r0 with
    | none => none
    | some r1 =>
      match pIdent r1 with
      | none => none
      | some (nm, r2) =>
        match pChar '(' (pWs r2) with
        | none => none
        | some r3 =>
          match pChar ')' (r3.dropWhile (fun c => c ≠ ')')) with
          | none => none
          | some r4 =>
            match pChar ':' (pWs r4) with
            | none => none
            | some r5 => some ((String.mk nm, String.mk (r3.takeWhile (fun c => c ≠ ')'))), r5)

/-- Adapt a remainder-returning matcher to report the matched length. -/
def tryOf {α : Type} (p : List Char → Option (α × List Char)) (cs : List Char) :
    Option (α × Nat) :=
  (p cs).map (fun x => (x.1, cs.length - x.2.length))

/-- Recursion core of `scanA`, structurally recursive on a fuel that the
wrapper sets to the text length (each step consumes at least one
character, so the fuel never runs out before the text does). -/
def scanAux {α : Type} (try1 : List Char → Option (α × Nat)) :
    Nat → List Char → Bool → List α
  | 0, _, _ => []
  | _, [], _ => []
  | fuel + 1, c :: cs, atStart =>
    match (if atStart then try1 (c :: cs) else none) with
    | some (a, n) =>
      let m := max n 1
      a :: scanAux try1 fuel ((c :: cs).drop m)
        (isLineTerm ((((c :: cs).take m).getLast?).getD ' '))
    | none => scanAux try1 fuel cs (isLineTerm c)

/-- Faithful model of the JS loop `while ((m = re.exec(text)) !== null)`
for a `^`-anchored multiline global pattern: the pattern is attempted
only at line starts, a successful match advances past the matched text,
a failure advances one character.  All matches of the patterns used here
are nonempty, so the `max · 1` step agrees with JS. -/
def scanA {α : Type} (try1 : List Char → Option (α × Nat)) (cs : List Char)
    (atStart : Bool) : List α :=
  scanAux try1 cs.length cs atStart

/-- All captures of the annotation rule, in scan order. -/
def annotPairs (cs : List Char) : List (String × CoreType) :=
  scanA (tryOf pAnnot) cs true

def listEmptyIds (cs : List Char) : List String := scanA (tryOf pListEmpty) cs true

def listNonemptyIds (cs : List Char) : List String := scanA (tryOf pListNonempty) cs true

def listCtorIds (cs : List Char) : List String :=
  scanA (tryOf (pCtorAssign ("list".data))) cs true

def dictEmptyIds (cs : List Char) : List String := scanA (tryOf pDictEmpty) cs true

def dictNonemptyIds (cs : List Char) : List String := scanA (tryOf pDictNonempty) cs true

def dictCtorIds (cs : List Char) : List String :=
  scanA (tryOf (pCtorAssign ("dict".data))) cs true

def setCtorIds (cs : List Char) : List String :=
  scanA (tryOf (pCtorAssign ("set".data))) cs true

def strLitIds (cs : List Char) : List String := scanA (tryOf pStrLit) cs true

def strCtorIds (cs : List Char) : List String :=
  scanA (tryOf (pCtorAssign ("str".data))) cs true

def defCaptures (cs : List Char) : List (String × String) :=
  scanA (tryOf pDefIndex) cs true

/-- `paramsRaw.trim()` then split on commas and trim each piece
(empty list for a blank parameter text). -/
def splitParams (raw : List Char) : List String :=
  let t := trimJS raw
  if t.isEmpty then [] else (splitCommas t).map (fun p => String.mk (trimJS p))

/-- The identifiers captured by the `list` pattern category, in the
order its three patterns run. -/
def listIds (cs : List Char) : List String :=
  listEmptyIds cs ++ listNonemptyIds cs ++ listCtorIds cs

/-- The identifiers captured by the `dict` pattern category. -/
def dictIds (cs : List Char) : List String :=
  dictEmptyIds cs ++ dictNonemptyIds cs ++ dictCtorIds cs

/-- The identifiers captured by the `set` pattern category. -/
def setIds (cs : List Char) : List String :=
  setCtorIds cs

/-- The identifiers captured by the `str` pattern category. -/
def strIds (cs : List Char) : List String :=
  strLitIds cs ++ strCtorIds cs

/-- The identifiers bound by the annotation category. -/
def annotIds (cs : List Char) : List String :=
  (annotPairs cs).map (·.1)

/-- The variable-type writes of `buildSymbolIndex`, in the order the
source performs them: the annotation rule first, then the assignment
pattern categories `list`, `dict`, `set`, `str`, each category running
its patterns in declaration order over the whole text. -/
def varWrites (cs : List Char) : List (String × CoreType) :=
  annotPairs cs
    ++ (listIds cs).map (fun i => (i, CoreType.list))
    ++ (dictIds cs).map (fun i => (i, CoreType.dict))
    ++ (setIds cs).map (fun i => (i, CoreType.set))
    ++ (strIds cs).map (fun i => (i, CoreType.str))

/-- `buildSymbolIndex` (source lines 135-194). -/
def buildSymbolIndexL (cs : List Char) : SymbolIndex :=
  let functions := (defCaptures cs).foldl
    (fun m nf =>
      rset m nf.1
        { params := splitParams nf.2.data,
          label := nf.1 ++ "(" ++ String.mk (trimJS nf.2.data) ++ ")" })
    rempty
  let vars := (varWrites cs).foldl (fun m p => rset m p.1 p.2) rempty
  { vars := vars, functions := functions }

def buildSymbolIndex (text : String) : SymbolIndex :=
  buildSymbolIndexL text.data

/-- `(symIndex.vars && symIndex.vars[id]) || "unknown"`. -/
def varTypeOf (idx : SymbolIndex) (id : String) : CoreType :=
  (rfind? idx.vars id).getD CoreType.unknown

/-! ### The catalog parser `parseBuiltins` (source lines 13-109) -/

/-- `py.split(/\r?\n/)`: the separator is `\r\n` where present (leftmost
match), otherwise a bare `\n`. -/
def splitLinesJS : List Char → List (List Char)
  | [] => [[]]
  | '\n' :: cs => [] :: splitLinesJS cs
  | '\x0d' :: '\n' :: cs => [] :: splitLinesJS cs
  | c :: cs =>
    match splitLinesJS cs with
    | [] => [[c]]
    | h :: t => (c :: h) :: t

/-- JS `indexOf` of a substring: index of its first occurrence. -/
def firstIdxOfSub (pat : List Char) : List Char → Option Nat
  | [] => if pat.isEmpty then some 0 else none
  | c :: cs =>
    if pat.isPrefixOf (c :: cs) then some 0
    else (firstIdxOfSub pat cs).map (· + 1)

/-- The accumulation loop of `readDocString` for a multi-line doc block:
left-trimmed lines are collected until one contains the closing
delimiter, whose prefix before the delimiter is included. -/
def collectDoc (triple : List Char) : List (List Char) → List (List Char) × List (List Char)
  | [] => ([], [])
  | l :: rest =>
    let lt := trimStartJS l
    match firstIdxOfSub triple lt with
    | some k => ([lt.take k], rest)
    | none =>
      let pr := collectDoc triple rest
      (lt :: pr.1, pr.2)

/-- JS `parts.join("\n")`. -/
def joinNL : List (List Char) → List Char
  | [] => []
  | [p] => p
  | p :: ps => p ++ '\n' :: joinNL ps

/-- `readDocString` (source lines 26-56), phrased over the list of lines
from `startIndex` on; returns the optional docstring and the lines from
`next` on. -/
def readDocString (minIndent : Nat) (ls : List (List Char)) :
    Option String × List (List Char) :=
  let ls1 := ls.dropWhile (fun l => trimJS l = [])
  match ls1 with
  | [] => (none, [])
  | raw :: rest =>
    let t := trimStartJS raw
    if raw.length - t.length < minIndent then (none, ls1)
    else
      let tripleD := "\x22\x22\x22".data
      let tripleS := "\x27\x27\x27".data
      match
        (if tripleD.isPrefixOf t then some tripleD
         else if tripleS.isPrefixOf t then some tripleS else none) with
      | none => (none, ls1)
      | some triple =>
        let content := t.drop 3
        match firstIdxOfSub triple content with
        | some k => (some (String.mk (trimJS (content.take k))), rest)
        | none =>
          let pr := collectDoc triple rest
          (some (String.mk (trimJS (joinNL pr.1))), pr.2)

/-- `/^class\s+([A-Za-z_][A-Za-z0-9_]*)\s*:/` on one line. -/
def pClassDecl (l : List Char) : Option String :=
  match pLit ("class".data) l with
  | none => none
  | some r0 =>
    match pWs1 r0 with
    | none => none
    | some r1 =>
      match pIdent r1 with
      | none => none
      | some (nm, r2) => (pChar ':' (pWs r2)).map (fun _ => String.mk nm)

/-- The part of the member pattern after the indentation:
`([A-Za-z_][A-Za-z0-9_]*)\s*:\s*[A-Za-z_][A-Za-z0-9_\[\]]*`. -/
def pMemberTail (r : List Char) : Option String :=
  match pIdent r with
  | none => none
  | some (nm, r1) =>
    match pChar ':' (pWs r1) with
    | none => none
    | some r2 =>
      match pWs r2 with
      | c :: _ => if isIdentStart c then some (String.mk nm) else none
      | [] => none

/-- `/^(\s{4}|\t)([A-Za-z_][A-Za-z0-9_]*)\s*:\s*[A-Za-z_][A-Za-z0-9_\[\]]*/`:
the first alternative (four whitespace characters) is tried first and the
single-tab alternative is tried on any failure of the remainder. -/
def pMemberDecl (l : List Char) : Option String :=
  match l with
  | a :: b :: c :: d :: rest =>
    match
      (if isSpaceJS a && isSpaceJS b && isSpaceJS c && isSpaceJS d
       then pMemberTail rest else none) with
    | some nm => some nm
    | none => if a = '\t' then pMemberTail (b :: c :: d :: rest) else none
  | a :: rest => if a = '\t' then pMemberTail rest else none
  | [] => none

/-- `/^([A-Za-z_][A-Za-z0-9_]*)\s*=\s*[A-Za-z_][A-Za-z0-9_]*\(/`
(the constructed-constant heuristic; note: no whitespace is permitted
between the caller name and the parenthesis). -/
def pConstDecl (l : List Char) : Option String :=
  match pAssignHead l with
  | none => none
  | some (id, r) =>
    match pIdent r with
    | none => none
    | some (_, r1) => (pChar '(' r1).map (fun _ => id)

/-- `/^def\s+([A-Za-z_][A-Za-z0-9_]*)\s*\(([^)]*)\)\s*(?:->\s*([^:]+))?\s*:/`:
captures name, raw parameter text and the trimmed return-type text.
When `->` is present the backtracking of `\s*([^:]+)` makes the group
succeed exactly when at least one character (whitespace included) stands
between `->` and the first following `:`; the capture differs from that
run only in leading whitespace, which the subsequent `.trim()` erases,
so the run itself is trimmed here. -/
def pDefDecl (l : List Char) : Option (String × String × String) :=
  match pLit ("def".data) l with
  | none => none
  | some r0 =>
    match pWs1 r0 with
    | none => none
    | some r1 =>
      match pIdent r1 with
      | none => none
      | some (nm, r2) =>
        match pChar '(' (pWs r2) with
        | none => none
        | some r3 =>
          match pChar ')' (r3.dropWhile (fun c => c ≠ ')')) with
          | none => none
          | some r4 =>
            let praw := String.mk (r3.takeWhile (fun c => c ≠ ')'))
            match pWs r4 with
            | '-' :: '>' :: r6 =>
              let run := r6.takeWhile (fun c => c ≠ ':')
              if run.isEmpty then none
              else
                (pChar ':' (r6.dropWhile (fun c => c ≠ ':'))).map
                  (fun _ => (String.mk nm, praw, String.mk (trimJS run)))
            | r5 => (pChar ':' r5).map (fun _ => (String.mk nm, praw, ""))

structure FunctionInfo where
  doc : Option String
  signatureLabel : String
  params : List String
  returnType : String
  deriving DecidableEq, Repr

/-- The catalog; class entries are the member maps (the `members` wrapper
object of the source carries no other field). -/
structure ParsedBuiltins where
  classes : RMap (RMap (Option String))
  functions : RMap FunctionInfo
  constants : RMap (Option String)
  classNames : List String
  deriving DecidableEq, Repr

structure PBAcc where
  classes : RMap (RMap (Option String))
  functions : RMap FunctionInfo
  constants : RMap (Option String)
  deriving DecidableEq, Repr

/-- `if (!classes[c]) classes[c] = { members: {} }`. -/
def rensure {α : Type} (m : RMap α) (k : String) (v : α) : RMap α :=
  match rfind? m k with
  | some _ => m
  | none => rset m k v

/-- `classes[currentClass].members[name] = doc`. -/
def setMember (classes : RMap (RMap (Option String))) (cls nm : String)
    (doc : Option String) : RMap (RMap (Option String)) :=
  match rfind? classes cls with
  | some mem => rset classes cls (rset mem nm doc)
  | none => classes

/-- `${name}(${paramsRaw})${returnType ? \` -> ${returnType}\` : ""}`. -/
def mkSigLabel (nm praw ret : String) : String :=
  nm ++ "(" ++ praw ++ ")" ++ (if ret = "" then "" else " -> " ++ ret)

/-- Processing of one line at top level (`!currentClass`, source lines
83-104): a `def` registers a function, a constructed-constant line
registers a constant, anything else is skipped; both docstring reads use
minimum indentation 0. -/
def pbTopStep (l : List Char) (rest : List (List Char)) (acc : PBAcc) :
    PBAcc × List (List Char) :=
  match pDefDecl l with
  | some d =>
    let praw := String.mk (trimJS d.2.1.data)
    let dr := readDocString 0 rest
    let info : FunctionInfo :=
      { doc := dr.1, signatureLabel := mkSigLabel d.1 praw d.2.2,
        params := splitParams d.2.1.data, returnType := d.2.2 }
    ({ acc with functions := rset acc.functions d.1 info }, dr.2)
  | none =>
    match pConstDecl l with
    | some k =>
      let dr := readDocString 0 rest
      ({ acc with constants := rset acc.constants k dr.1 }, dr.2)
    | none => (acc, rest)

/-- The scan loop of `parseBuiltins` (source lines 58-106), fueled by the
line count (every step consumes at least one line).  A non-blank,
non-indented line inside a class scope closes the scope and the same
line is reprocessed at top level, exactly as the source's `continue`
does. -/
def pbLoop : Nat → Option String → List (List Char) → PBAcc → PBAcc
  | 0, _, _, acc => acc
  | _, _, [], acc => acc
  | fuel + 1, cc, l :: rest, acc =>
    match pClassDecl l with
    | some cname =>
      pbLoop fuel (some cname) rest { acc with classes := rensure acc.classes cname rempty }
    | none =>
      match cc with
      | some cls =>
        match pMemberDecl l with
        | some mname =>
          let dr := readDocString 4 rest
          pbLoop fuel (some cls) dr.2
            { acc with classes := setMember acc.classes cls mname dr.1 }
        | none =>
          if (!(trimJS l).isEmpty && (match l with | c :: _ => !isSpaceJS c | [] => true)) then
            let st := pbTopStep l rest acc
            pbLoop fuel none st.2 st.1
          else pbLoop fuel (some cls) rest acc
      | none =>
        let st := pbTopStep l rest acc
        pbLoop fuel none st.2 st.1

/-- `parseBuiltins` (source lines 13-109). -/
def parseBuiltinsL (cs : List Char) : ParsedBuiltins :=
  let ls := splitLinesJS cs
  let acc := pbLoop ls.length none ls { classes := rempty, functions := rempty, constants := rempty }
  { classes := acc.classes, functions := acc.functions, constants := acc.constants,
    classNames := rkeys acc.classes }

def parseBuiltins (py : String) : ParsedBuiltins :=
  parseBuiltinsL py.data

/-! ### `METHOD_METADATA` (source lines 119-133) -/

structure MethodInfo where
  name : String
  label : String
  params : List String
  doc : Option String
  deriving DecidableEq, Repr

def listMethods : List MethodInfo :=
  [{ name := "append", label := "list.append(item: Any) -> None", params := ["item: Any"],
     doc := some ("Append item to the end of the list.") },
   { name := "remove", label := "list.remove(item: Any) -> None", params := ["item: Any"],
     doc := some ("Remove first occurrence of item. Raises if not present.") },
   { name := "insert", label := "list.insert(index: int, item: Any) -> None",
     params := ["index: int", "item: Any"], doc := some ("Insert item at a given position.") },
   { name := "pop", label := "list.pop(index: Optional[int] = None) -> Any",
     params := ["index: Optional[int] = None"],
     doc := some ("Remove and return item at index (default last).") }]

def dictMethods : List MethodInfo :=
  [{ name := "pop", label := "dict.pop(key: Any) -> Any", params := ["key: Any"],
     doc := some ("Remove specified key and return the corresponding value.") }]

def setMethods : List MethodInfo :=
  [{ name := "add", label := "set.add(item: Any) -> None", params := ["item: Any"],
     doc := some ("Add element to the set.") },
   { name := "remove", label := "set.remove(item: Any) -> None", params := ["item: Any"],
     doc := some ("Remove element from the set. Raises if not present.") }]

/-- `METHOD_METADATA[varType]`. -/
def methodTableFor : CoreType → List MethodInfo
  | CoreType.list => listMethods
  | CoreType.dict => dictMethods
  | CoreType.set => setMethods
  | _ => []

/-- The string interpolation of a `CoreType` (JS template `${varType}`). -/
def typeName : CoreType → String
  | CoreType.list => "list"
  | CoreType.dict => "dict"
  | CoreType.set => "set"
  | CoreType.str => "str"
  | CoreType.unknown => "unknown"

/-! ### Completion provider (source lines 271-362) -/

inductive CKind where
  | method
  | enumMember
  | function
  | cls
  | constant
  deriving DecidableEq, Repr

/-- A completion item; `preselect := false` models the JS items that omit
the (falsy) `preselect` field. -/
structure Suggestion where
  label : String
  kind : CKind
  insertText : String
  detail : String
  documentation : Option String
  sortText : String
  preselect : Bool
  deriving DecidableEq, Repr

/-- `linePrefix.match(/(?:^|\W)([A-Za-z_][A-Za-z0-9_]*)\.[A-Za-z_0-9]*$/)`,
reduced from the end of the string: the `$`-anchored tail
`[A-Za-z_0-9]*` is the maximal word suffix, the dot before it is
therefore the last dot of the string, and the captured identifier is the
maximal word run before that dot (maximality makes the preceding
character `\W` or the string start automatically); the run must begin
with an identifier-start character, since a start inside the run would be
preceded by a word character, which `(?:^|\W)` forbids. -/
def memberMatch (lp : List Char) : Option String :=
  let r := lp.reverse
  match r.dropWhile isWordChar with
  | '.' :: r2 =>
    match (r2.takeWhile isWordChar).reverse with
    | c :: cs => if isIdentStart c then some (String.mk (c :: cs)) else none
    | [] => none
  | _ => none

/-- The container-method suggestions of the member-access branch. -/
def methodSuggestions (varType : CoreType) : List Suggestion :=
  mapWithIdx
    (fun i mi =>
      { label := mi.name, kind := CKind.method, insertText := mi.name ++ "()",
        detail := typeName varType ++ " method",
        documentation :=
          some ((match mi.doc with | some d => mi.label ++ "\n\n" ++ d | none => mi.label)),
        sortText := "0_" ++ padStart3 (natStr i) ++ "_" ++ mi.name,
        preselect := i = 0 })
    0 (methodTableFor varType)

/-- The catalog-class-member suggestions of the member-access branch. -/
def classMemberSuggestions (clsKey : String) (members : RMap (Option String)) :
    List Suggestion :=
  mapWithIdx
    (fun i p =>
      { label := p.1, kind := CKind.enumMember, insertText := p.1,
        detail := clsKey ++ " member", documentation := p.2,
        sortText := "0_" ++ padStart3 (natStr i) ++ "_" ++ p.1,
        preselect := i = 0 })
    0 members

/-- Tier 0 of the top-level branch: local functions of the document. -/
def localFnSuggestions (idx : SymbolIndex) : List Suggestion :=
  mapWithIdx
    (fun i p =>
      { label := p.1, kind := CKind.function, insertText := p.1 ++ "()",
        detail := "function (document)", documentation := some p.2.label,
        sortText := "1_" ++ padStart3 (natStr i) ++ "_" ++ p.1, preselect := false })
    0 idx.functions

/-- Tier 1: catalog class names. -/
def classSuggestions (b : ParsedBuiltins) : List Suggestion :=
  mapWithIdx
    (fun i nm =>
      { label := nm, kind := CKind.cls, insertText := nm, detail := "class",
        documentation := none,
        sortText := "1a_" ++ padStart3 (natStr i) ++ "_" ++ nm, preselect := false })
    0 b.classNames

/-- Tier 2: catalog functions. -/
def builtinFnSuggestions (b : ParsedBuiltins) : List Suggestion :=
  mapWithIdx
    (fun i p =>
      { label := p.1, kind := CKind.function, insertText := p.1 ++ "()",
        detail := "function", documentation := p.2.doc,
        sortText := "2_" ++ padStart3 (natStr i) ++ "_" ++ p.1, preselect := false })
    0 b.functions

/-- Tier 3: catalog constants. -/
def constantSuggestions (b : ParsedBuiltins) : List Suggestion :=
  mapWithIdx
    (fun i p =>
      { label := p.1, kind := CKind.constant, insertText := p.1, detail := "constant",
        documentation := p.2,
        sortText := "3_" ++ padStart3 (natStr i) ++ "_" ++ p.1, preselect := false })
    0 b.constants

/-- The top-level branch (source lines 318-360). -/
def topLevelSuggestions (b : ParsedBuiltins) (idx : SymbolIndex) : List Suggestion :=
  localFnSuggestions idx ++ classSuggestions b ++ builtinFnSuggestions b
    ++ constantSuggestions b

/-- `provideCompletionItems` (source lines 273-361); `lineToCursor` is the
line text from column 1 to the cursor, as supplied by the host editor. -/
def provideCompletionItems (b : ParsedBuiltins) (idx : SymbolIndex)
    (lineToCursor : String) : List Suggestion :=
  let lp := trimEndJS lineToCursor.data
  match memberMatch lp with
  | some id =>
    match varTypeOf idx id with
    | CoreType.list => methodSuggestions CoreType.list
    | CoreType.dict => methodSuggestions CoreType.dict
    | CoreType.set => methodSuggestions CoreType.set
    | _ =>
      match rfindCI b.classes id with
      | some clsKey => classMemberSuggestions clsKey ((rfind? b.classes clsKey).getD rempty)
      | none => topLevelSuggestions b idx
  | none => topLevelSuggestions b idx

/-! ### Hover provider (source lines 366-404) -/

structure DotMatch where
  cls : String
  member : String
  startCol : Nat
  endCol : Nat
  deriving DecidableEq, Repr

/-- One attempt of `/\b(ID)\.(ID)\b/g` at the current position (the `\b`
preconditions are enforced by the caller's previous-character flag; the
trailing `\b` holds automatically after a maximal word run). -/
def pDotted (cs : List Char) : Option ((String × String) × Nat) :=
  match pIdent cs with
  | none => none
  | some (r1cap, rest1) =>
    match pChar '.' rest1 with
    | none => none
    | some rest2 =>
      match pIdent rest2 with
      | none => none
      | some (r2cap, _) =>
        some ((String.mk r1cap, String.mk r2cap), r1cap.length + 1 + r2cap.length)

/-- The global scan of `/\b(ID)\.(ID)\b/g` over a line, with one-based
columns (`startColumn = index + 1`, `endColumn = startColumn + length`).
Fueled by the line length; each step consumes at least one character. -/
def scanDotAux : Nat → Nat → List Char → Bool → List DotMatch
  | 0, _, _, _ => []
  | _, _, [], _ => []
  | fuel + 1, pos, c :: cs, prevWord =>
    match (if prevWord then none else pDotted (c :: cs)) with
    | some (caps, n) =>
      { cls := caps.1, member := caps.2, startCol := pos + 1, endCol := pos + 1 + n }
        :: scanDotAux fuel (pos + n) ((c :: cs).drop n) true
    | none => scanDotAux fuel (pos + 1) cs (isWordChar c)

def scanDotted (cs : List Char) : List DotMatch :=
  scanDotAux cs.length 0 cs false

structure Hover where
  startCol : Nat
  endCol : Nat
  contents : List String
  deriving DecidableEq, Repr

/-- The class and member resolution of the hover provider (source lines
378-383): both lookups are case-insensitive. -/
def lookupClassMember (b : ParsedBuiltins) (cls nm : String) :
    Option (String × String × Option String) :=
  match rfindCI b.classes cls with
  | none => none
  | some clsKey =>
    let members := (rfind? b.classes clsKey).getD rempty
    match rfindCI members nm with
    | none => none
    | some memberKey => some (clsKey, memberKey, (rfind? members memberKey).getD none)

/-- The hover result for a dotted match spanning the cursor: the
canonical `ClassName.member` line plus the documentation when present,
`none` when resolution fails. -/
def resolveDotted (b : ParsedBuiltins) (m : DotMatch) : Option Hover :=
  match lookupClassMember b m.cls m.member with
  | none => none
  | some r =>
    some { startCol := m.startCol, endCol := m.endCol,
           contents := [r.1 ++ "." ++ r.2.1] ++ (match r.2.2 with | some d => [d] | none => []) }

def spansCol (col : Nat) (m : DotMatch) : Bool :=
  m.startCol ≤ col && col ≤ m.endCol

/-- The `while` loop of the hover provider: the first match whose span
contains the cursor produces the provider's result (possibly `none`),
returning immediately; `none` at the outer level means no spanning match
was found and the loop ran to completion. -/
def hoverScan (b : ParsedBuiltins) (col : Nat) : List DotMatch → Option (Option Hover)
  | [] => none
  | m :: rest => if spansCol col m then some (resolveDotted b m) else hoverScan b col rest

/-- Modelled host behavior (`model.getWordAtPosition`, a function of the
Monaco editor, not of this repository): the maximal word-character runs
of the line with their one-based spans. -/
def wordRunsAux : Nat → Nat → List Char → List (String × Nat × Nat)
  | 0, _, _ => []
  | _, _, [] => []
  | fuel + 1, pos, c :: cs =>
    if isWordChar c then
      let run := c :: cs.takeWhile isWordChar
      (String.mk run, pos + 1, pos + 1 + run.length)
        :: wordRunsAux fuel (pos + run.length) (cs.dropWhile isWordChar)
    else wordRunsAux fuel (pos + 1) cs

def wordRuns (cs : List Char) : List (String × Nat × Nat) :=
  wordRunsAux cs.length 0 cs

/-- Modelled host behavior: the word whose span `[startColumn, endColumn]`
(inclusive at both boundary positions) contains the cursor column. -/
def wordAtPos (cs : List Char) (col : Nat) : Option (String × Nat × Nat) :=
  (wordRuns cs).find? (fun w => w.2.1 ≤ col && col ≤ w.2.2)

/-- The bare-word fallback of the hover provider (source lines 388-401):
catalog functions first (`w()` plus doc), then catalog constants (`w`
plus doc), then no result. -/
def hoverWordFallback (b : ParsedBuiltins) (line : String) (col : Nat) : Option Hover :=
  match wordAtPos line.data col with
  | none => none
  | some w =>
    match rfindEntryCI b.functions w.1 with
    | some fn =>
      some { startCol := w.2.1, endCol := w.2.2,
             contents := [w.1 ++ "()"] ++ (match fn.2.doc with | some d => [d] | none => []) }
    | none =>
      match rfindEntryCI b.constants w.1 with
      | some kc =>
        some { startCol := w.2.1, endCol := w.2.2,
               contents := [w.1] ++ (match kc.2 with | some d => [d] | none => []) }
      | none => none

/-- `provideHover` (source lines 367-403). -/
def provideHover (b : ParsedBuiltins) (line : String) (col : Nat) : Option Hover :=
  match hoverScan b col (scanDotted line.data) with
  | some r => r
  | none => hoverWordFallback b line col

/-! ### Signature-help provider (source lines 408-465) -/

structure SigHelp where
  label : String
  parameters : List String
  documentation : Option String
  activeSignature : Nat
  activeParameter : Nat
  deriving DecidableEq, Repr

/-- `/([A-Za-z_][A-Za-z0-9_]*)\.([A-Za-z_][A-Za-z0-9_]*)\s*\([^()]*$/`,
reduced from the end: `[^()]*$` forces the matched parenthesis to be the
last parenthesis character of the text and to be `(`; the method name is
the maximal word run before the whitespace before it and must sit
immediately after a dot and start with an identifier-start character;
the variable is the maximal word run before that dot, shortened from the
left to the first identifier-start character (the leftmost start the
engine accepts, there being no boundary assertion before the capture). -/
def methodCallMatch (cs : List Char) : Option (String × String) :=
  let rev := cs.reverse
  match rev.dropWhile (fun c => c ≠ '(' && c ≠ ')') with
  | '(' :: r1 =>
    let r2 := r1.dropWhile isSpaceJS
    let methodRev := r2.takeWhile isWordChar
    match methodRev.reverse with
    | mc :: ms =>
      if isIdentStart mc then
        match r2.drop methodRev.length with
        | '.' :: r4 =>
          match (r4.takeWhile isWordChar).reverse.dropWhile (fun c => !isIdentStart c) with
          | vc :: vs => some (String.mk (vc :: vs), String.mk (mc :: ms))
          | [] => none
        | _ => none
      else none
    | [] => none
  | _ => none

/-- `/([A-Za-z_][A-Za-z0-9_]*)\s*\([^()]*$/`, reduced from the end in the
same way. -/
def fnCallMatch (cs : List Char) : Option String :=
  let rev := cs.reverse
  match rev.dropWhile (fun c => c ≠ '(' && c ≠ ')') with
  | '(' :: r1 =>
    match ((r1.dropWhile isSpaceJS).takeWhile isWordChar).reverse.dropWhile
        (fun c => !isIdentStart c) with
    | c :: t => some (String.mk (c :: t))
    | [] => none
  | _ => none

/-- `textBefore.slice(textBefore.lastIndexOf("(") + 1)` (empty when there
is no parenthesis). -/
def argsAfterLastParen (cs : List Char) : List Char :=
  if cs.contains '(' then (cs.reverse.takeWhile (fun c => c ≠ '(')).reverse else []

/-- `(argsSoFar.match(/,/g) || []).length`. -/
def commaCount (cs : List Char) : Nat :=
  (argsAfterLastParen cs).countP (fun c => c = ',')

/-- The method-call branch of `provideSignatureHelp` (source lines
415-437): `var.method(` with `var` of a container type and `method`
matched case-insensitively in the method table.  `params.length - 1` is
truncated natural subtraction, which agrees with the source's
`Math.max(0, params.length - 1)`. -/
def sigHelpMethodBranch (idx : SymbolIndex) (cs : List Char) : Option SigHelp :=
  match methodCallMatch cs with
  | some vm =>
    let varType := varTypeOf idx vm.1
    if varType = CoreType.list ∨ varType = CoreType.dict ∨ varType = CoreType.set then
      match (methodTableFor varType).find? (fun mi => lowerStr mi.name = lowerStr vm.2) with
      | some mi =>
        some { label := mi.label, parameters := mi.params, documentation := mi.doc,
               activeSignature := 0,
               activeParameter := min (commaCount cs) (mi.params.length - 1) }
      | none => none
    else none
  | none => none

/-- The top-level function branch of `provideSignatureHelp` (source
lines 440-464): catalog functions first (case-insensitively), then the
document's local functions (by exact key). -/
def sigHelpFnBranch (b : ParsedBuiltins) (idx : SymbolIndex) (cs : List Char) :
    Option SigHelp :=
  match fnCallMatch cs with
  | none => none
  | some fnName =>
    match rfindEntryCI b.functions fnName with
    | some bf =>
      some { label := bf.2.signatureLabel, parameters := bf.2.params,
             documentation := bf.2.doc, activeSignature := 0,
             activeParameter := min (commaCount cs) (bf.2.params.length - 1) }
    | none =>
      match rfind? idx.functions fnName with
      | some f =>
        some { label := f.label, parameters := f.params, documentation := none,
               activeSignature := 0,
               activeParameter := min (commaCount cs) (f.params.length - 1) }
      | none => none

/-- `provideSignatureHelp` (source lines 410-464): the method branch
result when it produced one, the function branch otherwise. -/
def provideSignatureHelp (b : ParsedBuiltins) (idx : SymbolIndex)
    (textBefore : String) : Option SigHelp :=
  match sigHelpMethodBranch idx textBefore.data with
  | some r => some r
  | none => sigHelpFnBranch b idx textBefore.data

/-! ### Incremental index manager (source lines 196-268) -/

/-- The outcome of evaluating `buildSymbolIndex(model.getValue())` inside
one of the manager's `try` blocks: `Except.error` represents a thrown
exception (the host's `getValue`, or the build, throwing on the current
text).  The manager functions below are total — an exception never
escapes them, it only selects the `error` branch. -/
abbrev BuildResult := Except Unit SymbolIndex

def emptyIndex : SymbolIndex := { vars := rempty, functions := rempty }

/-- `getOrBuildIndex` (source lines 207-219): on a cache miss the build
runs inside `try ... catch`, a throw degrades to the empty index
`{ vars: {}, functions: {} }`, and the result (either way) is cached.
Returns the index handed to the caller and the updated cache. -/
def getOrBuildIndex (indexes : RMap SymbolIndex) (key : String)
    (buildResult : BuildResult) : SymbolIndex × RMap SymbolIndex :=
  match rfind? indexes key with
  | some idx => (idx, indexes)
  | none =>
    let idx :=
      match buildResult with
      | Except.ok i => i
      | Except.error _ => emptyIndex
    (idx, rset indexes key idx)

/-- The debounced rebuild body (source lines 245-247):
`try { symbolIndexes.set(key, buildSymbolIndex(model.getValue())); } catch {}`.
A throw happens while evaluating the argument, before `set` runs, so on
the error branch the map is left untouched. -/
def debouncedRebuild (indexes : RMap SymbolIndex) (key : String)
    (buildResult : BuildResult) : RMap SymbolIndex :=
  match buildResult with
  | Except.ok i => rset indexes key i
  | Except.error _ => indexes

/-- Debounce model for one open document (source lines 241-249):
`pending` is the timer armed by the latest content-change notification
(`clearTimeout(t)` followed by `setTimeout`), identified by a serial
number; `text` is the document content, already updated when the change
handler runs; `built` logs the rebuilds that actually executed, in
order. -/
structure DebounceState where
  text : String
  pending : Option Nat
  nextId : Nat
  indexes : RMap SymbolIndex
  built : List SymbolIndex
  deriving DecidableEq, Repr

inductive DocEvent where
  | change (t : String)
  | elapse (id : Nat)
  deriving DecidableEq, Repr

/-- The single document's identity key (`model.uri.toString()`). -/
def docKey : String := "default"

/-- One event step.  A change cancels the pending timer and arms a fresh
one; a timer expiry runs the rebuild only when that timer is still the
armed one (`clearTimeout` guarantees a cancelled callback never runs),
reading the text current at expiry. -/
def debounceStep (s : DebounceState) : DocEvent → DebounceState
  | DocEvent.change t =>
    { s with text := t, pending := some s.nextId, nextId := s.nextId + 1 }
  | DocEvent.elapse id =>
    if s.pending = some id then
      let i := buildSymbolIndex s.text
      { s with pending := none, indexes := rset s.indexes docKey i, built := s.built ++ [i] }
    else s

def debounceRun (s : DebounceState) (evs : List DocEvent) : DebounceState :=
  evs.foldl debounceStep s

/-! ### Concrete inputs used by the theorems -/

/-- A small reference text: one class with two members, one documented
function, one constructed constant. -/
def refTextA : String :=
  "class Items:\n    Hay: Item\n        \x22\x22\x22Dried grass.\x22\x22\x22\n    Wood: Item\n\ndef harvest() -> None:\n    \x22\x22\x22Gather.\x22\x22\x22\n\nNorth = Direction(0)\n    \x22\x22\x22The north.\x22\x22\x22\n"

def catalogA : ParsedBuiltins := parseBuiltins refTextA

/-- A reference text with a single three-parameter function `f`. -/
def refTextF3 : String := "def f(a, b, c):\n"

def catalogF3 : ParsedBuiltins := parseBuiltins refTextF3

def emptyIdx : SymbolIndex := { vars := rempty, functions := rempty }

/-- The document of the type-inference test: `x` a list by literal
assignment, `y` a dict by annotation. -/
def docXY : String := "x = []\ny: dict"

/-- A document whose only declaration is the local function `Foo`. -/
def docFoo : String := "def Foo(a):\n    pass"

/-- A document giving `x` a list literal on one line and a string
literal on another. -/
def docListThenStr : String := "x = [1]\nx = \x22hi\x22"

/-- A document index with 1001 local functions, as `buildSymbolIndex`
produces for a document of 1001 top-level lines `def f0(x):` …
`def f1000(x):`. -/
def bigIdx : SymbolIndex :=
  { vars := rempty,
    functions :=
      (List.range 1001).map
        (fun i => ("f" ++ natStr i, { params := ["x"], label := "f" ++ natStr i ++ "(x)" })) }

/-- The catalog parsed from an empty reference text: empty throughout. -/
def catalogEmpty : ParsedBuiltins := parseBuiltins ("")

/-- `Option.or`: the first operand when present, the second otherwise. -/
def oor {α : Type} : Option α → Option α → Option α
  | some a, _ => some a
  | none, b => b

/-- The value written last for a key by a sequence of writes. -/
def lastVal {α : Type} (ps : List (String × α)) (id : String) : Option α :=
  ((ps.filter (fun p => p.1 = id)).getLast?).map (·.2)

/-- The number of rule categories that bind `id` somewhere in the text. -/
def categoriesMatching (cs : List Char) (id : String) : Nat :=
  (if id ∈ annotIds cs then 1 else 0) + (if id ∈ listIds cs then 1 else 0)
    + (if id ∈ dictIds cs then 1 else 0) + (if id ∈ setIds cs then 1 else 0)
    + (if id ∈ strIds cs then 1 else 0)

/-- The type contributed by the last-applied category binding `id`, in
the fixed application order annotations, list, dict, set, str (for the
annotation category, the type of its last write for `id`). -/
def lastCategoryType (cs : List Char) (id : String) : Option CoreType :=
  if id ∈ strIds cs then some CoreType.str
  else if id ∈ setIds cs then some CoreType.set
  else if id ∈ dictIds cs then some CoreType.dict
  else if id ∈ listIds cs then some CoreType.list
  else lastVal (annotPairs cs) id

/-- The completion provider answers from the top-level branch: there is
no member-access shape before the cursor, or its identifier resolves
neither to a container type nor (case-insensitively) to a catalog
class. -/
def topLevelTaken (b : ParsedBuiltins) (idx : SymbolIndex) (lineToCursor : String) : Bool :=
  match memberMatch (trimEndJS lineToCursor.data) with
  | none => true
  | some id =>
    !(varTypeOf idx id = CoreType.list || varTypeOf idx id = CoreType.dict
        || varTypeOf idx id = CoreType.set)
      && (rfindCI b.classes id).isNone

/-- The key ordering of completion items: `sortText` compared by the
host editor's lexicographic string order. -/
def keyLt (s t : Suggestion) : Prop :=
  lexLt s.sortText.data t.sortText.data = true

/-- Every item of an earlier tier of the top-level completion answer
sorts strictly before every item of a later tier. -/
def crossTierOrdered (b : ParsedBuiltins) (idx : SymbolIndex) : Prop :=
  (∀ s ∈ localFnSuggestions idx,
      (∀ t ∈ classSuggestions b, keyLt s t)
        ∧ (∀ t ∈ builtinFnSuggestions b, keyLt s t)
        ∧ (∀ t ∈ constantSuggestions b, keyLt s t))
    ∧ (∀ s ∈ classSuggestions b,
        (∀ t ∈ builtinFnSuggestions b, keyLt s t)
          ∧ (∀ t ∈ constantSuggestions b, keyLt s t))
    ∧ (∀ s ∈ builtinFnSuggestions b, ∀ t ∈ constantSuggestions b, keyLt s t)

/-- The signature-help result for `f(a, b, ` against `catalogF3`. -/
def sigF3at2 : SigHelp :=
  { label := "f(a, b, c)", parameters := ["a", "b", "c"], documentation := none,
    activeSignature := 0, activeParameter := 2 }

/-- The debounce state reached from `s` after a burst of content-change
notifications carrying the texts `ts`, none of whose timers has elapsed. -/
def afterChanges (s : DebounceState) (ts : List String) : DebounceState :=
  debounceRun s (ts.map DocEvent.change)

/-- The serial number of the timer armed by the last of the `ts`
notifications. -/
def lastTimerId (s : DebounceState) (ts : List String) : Nat :=
  s.nextId + ts.length - 1

/-- An initial debounce state. -/
def dState0 : DebounceState :=
  { text := "", pending := none, nextId := 0, indexes := rempty, built := [] }

/-- Three texts arriving within one quiet period. -/
def burst3 : List String := ["x = 1", "x = 2", "x = []"]

/-! ## Helper lemmas -/

theorem rfind?_rset {α : Type} (m : RMap α) (k : String) (v : α) (id : String) :
    rfind? (rset m k v) id = if id = k then some v else rfind? m id := by
  induction m with
  | nil =>
    simp only [rset, rfind?]
    by_cases h : id = k
    · simp [h]
    · have h2 : ¬ k = id := fun hh => h hh.symm
      simp [h, h2]
  | cons p rest ih =>
    simp only [rset]
    by_cases hp : p.1 = k
    · simp only [if_pos hp, rfind?]
      by_cases h : id = k
      · simp [h]
      · have hk : ¬ k = id := fun hh => h hh.symm
        have hp1 : ¬ p.1 = id := by rw [hp]; exact hk
        simp [h, hk, hp1]
    · simp only [if_neg hp, rfind?]
      by_cases h1 : p.1 = id
      · have hik : ¬ id = k := fun hh => hp (by rw [h1, hh])
        simp [h1, hik]
      · rw [ih]
        by_cases h : id = k
        · subst h
          simp [hp, h1]
        · simp [h, h1]

theorem oor_assoc {α : Type} (a b c : Option α) : oor (oor a b) c = oor a (oor b c) := by
  cases a <;> cases b <;> simp [oor]

theorem lastVal_append {α : Type} (ps qs : List (String × α)) (id : String) :
    lastVal (ps ++ qs) id = oor (lastVal qs id) (lastVal ps id) := by
  unfold lastVal
  rw [List.filter_append]
  rcases hq : (qs.filter (fun p => p.1 = id)).getLast? with - | x
  · rw [List.getLast?_eq_none_iff] at hq
    simp [hq, oor]
  · rw [List.getLast?_append_of_ne_nil, hq]
    · simp [oor]
    · intro hnil
      rw [hnil] at hq
      cases hq

theorem foldl_rset_lastVal {α : Type} (ps : List (String × α)) (m : RMap α) (id : String) :
    rfind? (ps.foldl (fun m p => rset m p.1 p.2) m) id = oor (lastVal ps id) (rfind? m id) := by
  induction ps generalizing m with
  | nil => simp [lastVal, oor]
  | cons p rest ih =>
    have hsplit : lastVal (p :: rest) id = oor (lastVal rest id) (lastVal [p] id) :=
      lastVal_append [p] rest id
    rw [List.foldl_cons, ih, rfind?_rset, hsplit]
    by_cases h : id = p.1
    · cases hr : lastVal rest id <;> simp [oor, lastVal, rfind?, h, hr]
    · have h2 : p.1 = id ↔ False := by
        constructor
        · intro hh; exact h hh.symm
        · intro hh; exact hh.elim
      cases hr : lastVal rest id <;> simp [oor, lastVal, h, hr, h2]

theorem lastVal_map_const {α : Type} (ids : List String) (t : α) (id : String) :
    lastVal (ids.map (fun i => (i, t))) id = if id ∈ ids then some t else none := by
  induction ids with
  | nil => simp [lastVal]
  | cons i rest ih =>
    simp only [List.map_cons]
    have hsplit := lastVal_append [(i, t)] (rest.map (fun i => (i, t))) id
    simp only [List.singleton_append] at hsplit
    rw [hsplit, ih]
    by_cases hm : id ∈ rest
    · rw [if_pos hm]
      simp [oor, List.mem_cons, hm]
    · rw [if_neg hm]
      by_cases hi : i = id
      · subst hi
        simp [oor, lastVal, List.mem_cons, hm]
      · have h2 : ¬ id = i := fun hh => hi hh.symm
        simp [oor, lastVal, List.mem_cons, hm, hi, h2]

theorem mapWithIdx_length {α β : Type} (f : Nat → α → β) (n : Nat) (l : List α) :
    (mapWithIdx f n l).length = l.length := by
  induction l generalizing n with
  | nil => rfl
  | cons a as ih => simp [mapWithIdx, ih]

theorem mapWithIdx_getElem {α β : Type} (f : Nat → α → β) (n : Nat) (l : List α)
    (i : Nat) (hi : i < l.length) (hi2 : i < (mapWithIdx f n l).length) :
    (mapWithIdx f n l)[i] = f (n + i) l[i] := by
  induction l generalizing n i with
  | nil => cases hi
  | cons a as ih =>
    cases i with
    | zero => simp [mapWithIdx]
    | succ j =>
      have hj : j < as.length := Nat.lt_of_succ_lt_succ hi
      have hj2 : j < (mapWithIdx f (n + 1) as).length := by
        rw [mapWithIdx_length]; exact hj
      simp only [mapWithIdx, List.getElem_cons_succ]
      rw [ih (n + 1) j hj hj2]
      congr 1
      omega

theorem mem_mapWithIdx {α β : Type} (f : Nat → α → β) (n : Nat) (l : List α) (x : β)
    (hx : x ∈ mapWithIdx f n l) : ∃ i, ∃ h : i < l.length, x = f (n + i) l[i] := by
  induction l generalizing n with
  | nil => cases hx
  | cons a as ih =>
    rcases List.mem_cons.mp hx with heq | hx2
    · exact ⟨0, by simp, by simpa using heq⟩
    · rcases ih (n + 1) hx2 with ⟨i, hilt, hieq⟩
      refine ⟨i + 1, by simpa using Nat.succ_lt_succ hilt, ?_⟩
      simpa [Nat.add_assoc, Nat.add_comm 1 i] using hieq

/-! ## Claim C8: determinism of the parser and the indexer -/

/-- C8: `parseBuiltins` and `buildSymbolIndex` are deterministic
functions of their input text — two runs on the same text produce
structurally equal catalogs and indexes, so rebuilding a document index
from unchanged text yields an index equal to the previous one.  (In the
embedding both are pure functions, which is faithful: the source
functions read nothing but their argument, and their only mutation is of
regex cursors created afresh inside each call.) -/
theorem c8_deterministic (t1 t2 : String) (h : t1 = t2) :
    parseBuiltins t1 = parseBuiltins t2 ∧ buildSymbolIndex t1 = buildSymbolIndex t2 := by
  subst h
  exact ⟨rfl, rfl⟩

theorem c8_witness :
    parseBuiltins refTextA = parseBuiltins refTextA
      ∧ buildSymbolIndex docXY = buildSymbolIndex docXY :=
  ⟨(c8_deterministic refTextA refTextA rfl).1, (c8_deterministic docXY docXY rfl).2⟩

/-! ## Claim C5: member completion for inferred `list` and `dict` -/

/-- C5: in a document where `x = []` infers `x : list` and `y: dict`
infers `y : dict`, completion immediately after `x.` returns exactly the
four list methods in declared order `append`, `remove`, `insert`, `pop`
with the first preselected, and completion after `y.` returns exactly
the single dict method `pop` — whatever the catalog (the member branch
never consults it for container types). -/
theorem c5_member_completion (b : ParsedBuiltins) :
    provideCompletionItems b (buildSymbolIndex docXY) ("x.")
        = [{ label := "append", kind := CKind.method, insertText := "append()",
             detail := "list method",
             documentation :=
               some ("list.append(item: Any) -> None\n\nAppend item to the end of the list."),
             sortText := "0_000_append", preselect := true },
           { label := "remove", kind := CKind.method, insertText := "remove()",
             detail := "list method",
             documentation :=
               some ("list.remove(item: Any) -> None\n\nRemove first occurrence of item. Raises if not present."),
             sortText := "0_001_remove", preselect := false },
           { label := "insert", kind := CKind.method, insertText := "insert()",
             detail := "list method",
             documentation :=
               some ("list.insert(index: int, item: Any) -> None\n\nInsert item at a given position."),
             sortText := "0_002_insert", preselect := false },
           { label := "pop", kind := CKind.method, insertText := "pop()",
             detail := "list method",
             documentation :=
               some ("list.pop(index: Optional[int] = None) -> Any\n\nRemove and return item at index (default last)."),
             sortText := "0_003_pop", preselect := false }]
      ∧ provideCompletionItems b (buildSymbolIndex docXY) ("y.")
        = [{ label := "pop", kind := CKind.method, insertText := "pop()",
             detail := "dict method",
             documentation :=
               some ("dict.pop(key: Any) -> Any\n\nRemove specified key and return the corresponding value."),
             sortText := "0_000_pop", preselect := true }] := by
  constructor <;> rfl

theorem c5_witness :
    (provideCompletionItems catalogA (buildSymbolIndex docXY) ("x.")).map (fun s => s.label)
        = ["append", "remove", "insert", "pop"]
      ∧ (provideCompletionItems catalogA (buildSymbolIndex docXY) ("y.")).map (fun s => s.label)
        = ["pop"] := by
  constructor
  · rw [(c5_member_completion catalogA).1]
    rfl
  · rw [(c5_member_completion catalogA).2]
    rfl

/-! ## Claim C10: case sensitivity of signature-help resolution -/

/-- C10: signature help resolves catalog function names and container
method names case-insensitively but local document function names
case-sensitively: with only a local `def Foo(a):` and no catalog
function named `foo`, text ending `foo(` yields no signature while
`Foo(` yields the local signature; by contrast `HARVEST(` resolves the
catalog function `harvest` and `x.APPEND(` (with `x : list`) resolves
the list method `append`. -/
theorem c10_case_sensitivity :
    provideSignatureHelp catalogA (buildSymbolIndex docFoo) ("foo(") = none
      ∧ provideSignatureHelp catalogA (buildSymbolIndex docFoo) ("Foo(")
        = some { label := "Foo(a)", parameters := ["a"], documentation := none,
                 activeSignature := 0, activeParameter := 0 }
      ∧ provideSignatureHelp catalogA emptyIdx ("HARVEST(")
        = some { label := "harvest() -> None", parameters := [], documentation := some ("Gather."),
                 activeSignature := 0, activeParameter := 0 }
      ∧ provideSignatureHelp catalogA (buildSymbolIndex ("x = []")) ("x.APPEND(")
        = some { label := "list.append(item: Any) -> None", parameters := ["item: Any"],
                 documentation := some ("Append item to the end of the list."),
                 activeSignature := 0, activeParameter := 0 } := by
  refine ⟨?_, ?_, ?_, ?_⟩ <;> rfl

/-! ## Claim C2: exception containment in the index manager -/

/-- C2 counterexample: the claim asserts that after a build exception
the visible index is the empty one on the debounced-rebuild path as
well.  In fact that path (`try { set(key, build(...)) } catch {}`)
leaves the map untouched when the build throws: with a non-empty index
cached for the key, the cached index — not the empty index — stays
visible. -/
theorem c2_counterexample :
    debouncedRebuild [(docKey, buildSymbolIndex docXY)] docKey (Except.error ())
        = [(docKey, buildSymbolIndex docXY)]
      ∧ rfind? (debouncedRebuild [(docKey, buildSymbolIndex docXY)] docKey (Except.error ()))
          docKey = some (buildSymbolIndex docXY)
      ∧ buildSymbolIndex docXY ≠ emptyIndex := by
  refine ⟨rfl, rfl, ?_⟩
  decide

/-- C2 as amended: a build exception never propagates (both manager
operations are total functions of the build outcome); on the synchronous
get-or-build path a cache miss with a throwing build installs and
returns the empty index `{ vars: {}, functions: {} }`; on the debounced
rebuild path a throwing build leaves the previously visible index
unchanged rather than replacing it with the empty index. -/
theorem c2_amended (indexes : RMap SymbolIndex) (key : String) :
    (rfind? indexes key = none →
      getOrBuildIndex indexes key (Except.error ())
        = (emptyIndex, rset indexes key emptyIndex))
      ∧ debouncedRebuild indexes key (Except.error ()) = indexes := by
  constructor
  · intro h
    simp [getOrBuildIndex, h]
  · rfl

theorem c2_witness :
    rfind? (rempty : RMap SymbolIndex) docKey = none
      ∧ getOrBuildIndex rempty docKey (Except.error ())
        = (emptyIndex, rset rempty docKey emptyIndex) :=
  ⟨rfl, (c2_amended rempty docKey).1 rfl⟩

/-! ## Claim C1: the hover bare-word fallback -/

theorem hoverScan_eq_find? (b : ParsedBuiltins) (col : Nat) (ms : List DotMatch) :
    hoverScan b col ms = (ms.find? (spansCol col)).map (fun m => resolveDotted b m) := by
  induction ms with
  | nil => rfl
  | cons m rest ih =>
    by_cases h : spansCol col m
    · simp [hoverScan, List.find?, h]
    · simp only [Bool.not_eq_true] at h
      simp [hoverScan, List.find?, h, ih]

/-- C1 counterexample: with a catalog holding the function `harvest` and
no classes, hovering at column 6 of the line `foo.harvest` (inside the
`identifier.member` token whose left side `foo` is not a catalog class)
returns no hover at all, although the word under the cursor is `harvest`
and the bare-word fallback would resolve it to `harvest()` plus its
documentation — the fallback the claim asserts is not applied. -/
theorem c1_counterexample :
    provideHover catalogA ("foo.harvest") 6 = none
      ∧ wordAtPos ("foo.harvest").data 6 = some ("harvest", 5, 12)
      ∧ rfindEntryCI catalogA.functions ("harvest")
          = some ("harvest", { doc := some ("Gather."), signatureLabel := "harvest() -> None",
                               params := [], returnType := "None" })
      ∧ hoverWordFallback catalogA ("foo.harvest") 6
        = some { startCol := 5, endCol := 12, contents := ["harvest()", "Gather."] } := by
  refine ⟨?_, ?_, ?_, ?_⟩ <;> rfl

/-- C1 as amended: the bare-word fallback (catalog functions first,
returning `name()` plus doc, then catalog constants, returning the name
plus doc, then the no-hover result — `hoverWordFallback`) is applied
exactly when no `identifier.member`-shaped token's span contains the
cursor; when such a token spans the cursor but its class-and-member
resolution fails, the provider returns the no-hover result directly,
without attempting the fallback.  Either way no error is raised (the
provider is a total function into `Option`). -/
theorem c1_amended (b : ParsedBuiltins) (line : String) (col : Nat) :
    ((scanDotted line.data).find? (spansCol col) = none →
      provideHover b line col = hoverWordFallback b line col)
      ∧ (∀ m, (scanDotted line.data).find? (spansCol col) = some m →
          lookupClassMember b m.cls m.member = none →
          provideHover b line col = none) := by
  constructor
  · intro h
    unfold provideHover
    rw [hoverScan_eq_find?, h]
    rfl
  · intro m hm hres
    unfold provideHover
    rw [hoverScan_eq_find?, hm]
    simp [resolveDotted, hres]

/-! ## Claim C4: the active-parameter formula of signature help -/

/-- C4: whenever signature help resolves a callable, the returned
active-parameter index is `min(commas after the last open parenthesis,
paramCount - 1)` (the natural subtraction clamps the `paramCount = 0`
case to 0), in the method branch and in the function branch alike; and
concretely, against a catalog whose `f` has three parameters, text
ending `f(a, b, ` yields 2, `f(` yields 0, and `f(a, b, c, d` yields 2
(clamped). -/
theorem c4_method_branch (idx : SymbolIndex) (cs : List Char) (r : SigHelp)
    (h : sigHelpMethodBranch idx cs = some r) :
    r.activeParameter = min (commaCount cs) (r.parameters.length - 1) := by
  unfold sigHelpMethodBranch at h
  rcases hm : methodCallMatch cs with - | vm <;> simp only [hm] at h
  · cases h
  · by_cases hty : varTypeOf idx vm.1 = CoreType.list ∨ varTypeOf idx vm.1 = CoreType.dict
        ∨ varTypeOf idx vm.1 = CoreType.set
    · rw [if_pos hty] at h
      rcases hf : (methodTableFor (varTypeOf idx vm.1)).find?
          (fun mi => lowerStr mi.name = lowerStr vm.2) with - | mi <;> simp only [hf] at h
      · cases h
      · cases h
        rfl
    · rw [if_neg hty] at h
      cases h

theorem c4_fn_branch (b : ParsedBuiltins) (idx : SymbolIndex) (cs : List Char) (r : SigHelp)
    (h : sigHelpFnBranch b idx cs = some r) :
    r.activeParameter = min (commaCount cs) (r.parameters.length - 1) := by
  unfold sigHelpFnBranch at h
  rcases hfn : fnCallMatch cs with - | fnName <;> simp only [hfn] at h
  · cases h
  · rcases hb : rfindEntryCI b.functions fnName with - | bf <;> simp only [hb] at h
    · rcases hl : rfind? idx.functions fnName with - | f <;> simp only [hl] at h
      · cases h
      · cases h
        rfl
    · cases h
      rfl

theorem c4_active_parameter :
    (∀ (b : ParsedBuiltins) (idx : SymbolIndex) (t : String) (r : SigHelp),
      provideSignatureHelp b idx t = some r →
      r.activeParameter = min (commaCount t.data) (r.parameters.length - 1))
      ∧ (provideSignatureHelp catalogF3 emptyIdx ("f(a, b, ")).map
          (fun r => r.activeParameter) = some 2
      ∧ (provideSignatureHelp catalogF3 emptyIdx ("f(")).map
          (fun r => r.activeParameter) = some 0
      ∧ (provideSignatureHelp catalogF3 emptyIdx ("f(a, b, c, d")).map
          (fun r => r.activeParameter) = some 2 := by
  refine ⟨?_, rfl, rfl, rfl⟩
  intro b idx t r h
  unfold provideSignatureHelp at h
  rcases hm : sigHelpMethodBranch idx t.data with - | r0 <;> simp only [hm] at h
  · exact c4_fn_branch b idx t.data r h
  · cases h
    exact c4_method_branch idx t.data r hm

theorem c4_witness :
    provideSignatureHelp catalogF3 emptyIdx ("f(a, b, ") = some sigF3at2
      ∧ sigF3at2.activeParameter
        = min (commaCount ("f(a, b, ").data) (sigF3at2.parameters.length - 1) :=
  ⟨by rfl, c4_active_parameter.1 catalogF3 emptyIdx ("f(a, b, ") sigF3at2 (by rfl)⟩

/-! ## Claim C3: rule-category order decides multiply-matched identifiers -/

theorem lastVal_ne_none_of_mem {α : Type} (ps : List (String × α)) (id : String)
    (h : id ∈ ps.map (·.1)) : lastVal ps id ≠ none := by
  induction ps with
  | nil => cases h
  | cons p rest ih =>
    have hsplit := lastVal_append [p] rest id
    rw [List.singleton_append] at hsplit
    rw [hsplit]
    rw [List.map_cons] at h
    rcases List.mem_cons.mp h with heq | hmem
    · have hpid : p.1 = id := heq.symm
      cases h1 : lastVal rest id <;> simp [oor, lastVal, hpid]
    · have := ih hmem
      cases h1 : lastVal rest id <;> simp [oor]
      exact absurd h1 this

theorem buildVars_lastVal (cs : List Char) (id : String) :
    rfind? (buildSymbolIndexL cs).vars id = lastVal (varWrites cs) id := by
  show rfind? ((varWrites cs).foldl (fun m p => rset m p.1 p.2) rempty) id = _
  rw [foldl_rset_lastVal]
  cases h : lastVal (varWrites cs) id <;> simp [oor, rfind?, rempty]

/-- C3: an identifier matched by more than one rule category is bound to
the type of the last-applied matching category in the fixed application
order annotations, list, dict, set, str — regardless of the source-line
order of the matches (the scans run per category over the whole text). -/
theorem c3_category_order (t : String) (id : String)
    (h : 2 ≤ categoriesMatching t.data id) :
    rfind? (buildSymbolIndex t).vars id = lastCategoryType t.data id
      ∧ lastCategoryType t.data id ≠ none := by
  constructor
  · show rfind? (buildSymbolIndexL t.data).vars id = _
    rw [buildVars_lastVal]
    unfold varWrites lastCategoryType
    rw [lastVal_append, lastVal_append, lastVal_append, lastVal_append,
        lastVal_map_const, lastVal_map_const, lastVal_map_const, lastVal_map_const]
    by_cases hT : id ∈ strIds t.data
    · simp [hT, oor]
    · by_cases hS : id ∈ setIds t.data
      · simp [hT, hS, oor]
      · by_cases hD : id ∈ dictIds t.data
        · simp [hT, hS, hD, oor]
        · by_cases hL : id ∈ listIds t.data
          · simp [hT, hS, hD, hL, oor]
          · simp only [if_neg hT, if_neg hS, if_neg hD, if_neg hL]
            cases hA : lastVal (annotPairs t.data) id <;> simp [oor]
  · intro hnone
    unfold lastCategoryType at hnone
    by_cases hT : id ∈ strIds t.data
    · rw [if_pos hT] at hnone; cases hnone
    · rw [if_neg hT] at hnone
      by_cases hS : id ∈ setIds t.data
      · rw [if_pos hS] at hnone; cases hnone
      · rw [if_neg hS] at hnone
        by_cases hD : id ∈ dictIds t.data
        · rw [if_pos hD] at hnone; cases hnone
        · rw [if_neg hD] at hnone
          by_cases hL : id ∈ listIds t.data
          · rw [if_pos hL] at hnone; cases hnone
          · rw [if_neg hL] at hnone
            have hA : id ∉ annotIds t.data := by
              intro hmem
              exact lastVal_ne_none_of_mem (annotPairs t.data) id hmem hnone
            unfold categoriesMatching at h
            simp [hT, hS, hD, hL, hA] at h

theorem c3_witness :
    2 ≤ categoriesMatching docListThenStr.data ("x")
      ∧ rfind? (buildSymbolIndex docListThenStr).vars ("x")
        = lastCategoryType docListThenStr.data ("x")
      ∧ lastCategoryType docListThenStr.data ("x") = some CoreType.str :=
  ⟨by decide, (c3_category_order docListThenStr ("x") (by decide)).1, by decide⟩

/-! ## Claim C6: top-level completion tiers and sort keys -/

theorem lexLt_trans (a b c : List Char) (h1 : lexLt a b = true) (h2 : lexLt b c = true) :
    lexLt a c = true := by
  induction a generalizing b c with
  | nil =>
    cases c with
    | cons z zs => rfl
    | nil =>
      cases b with
      | nil => cases h1
      | cons y ys => cases h2
  | cons x xs ih =>
    cases b with
    | nil => cases h1
    | cons y ys =>
      cases c with
      | nil => cases h2
      | cons z zs =>
        simp only [lexLt, Bool.or_eq_true, Bool.and_eq_true, decide_eq_true_eq] at h1 h2 ⊢
        rcases h1 with hxy | ⟨hxyEq, hxs⟩
        · rcases h2 with hyz | ⟨hyzEq, hys⟩
          · exact Or.inl (lt_trans hxy hyz)
          · exact Or.inl (hyzEq ▸ hxy)
        · rcases h2 with hyz | ⟨hyzEq, hys⟩
          · exact Or.inl (hxyEq ▸ hyz)
          · exact Or.inr ⟨hxyEq.trans hyzEq, ih ys zs hxs hys⟩

theorem lexLt_append_left (p a b : List Char) (h : lexLt a b = true) :
    lexLt (p ++ a) (p ++ b) = true := by
  induction p with
  | nil => exact h
  | cons x xs ih =>
    simp only [List.cons_append, lexLt, Bool.or_eq_true, Bool.and_eq_true, decide_eq_true_eq]
    exact Or.inr ⟨trivial, ih⟩


theorem lexLt_append_of_lt (a b x y : List Char) (hlen : a.length = b.length)
    (h : lexLt a b = true) : lexLt (a ++ x) (b ++ y) = true := by
  induction a generalizing b with
  | nil =>
    cases b with
    | nil => cases h
    | cons d ds => exact absurd hlen (by simp)
  | cons c cs ih =>
    cases b with
    | nil => cases h
    | cons d ds =>
      simp only [List.cons_append, lexLt, Bool.or_eq_true, Bool.and_eq_true,
        decide_eq_true_eq] at h ⊢
      rcases h with hcd | ⟨hEq, hrest⟩
      · exact Or.inl hcd
      · exact Or.inr ⟨hEq, ih ds (by simpa using hlen) hrest⟩

/-- A two-character strictly smaller prefix decides the whole key. -/
theorem lexLt_cross (c1 c2 d1 d2 : Char) (r1 r2 : List Char)
    (h : lexLt [c1, c2] [d1, d2] = true) :
    lexLt (c1 :: c2 :: r1) (d1 :: d2 :: r2) = true :=
  lexLt_append_of_lt [c1, c2] [d1, d2] r1 r2 rfl h

set_option maxRecDepth 40000 in
theorem pad3_length : ∀ n < 1000, (padStart3 (natStr n)).length = 3 := by decide

set_option maxRecDepth 40000 in
theorem pad3_succ_lt :
    ∀ n < 999, lexLt (padStart3 (natStr n)).data (padStart3 (natStr (n + 1))).data = true := by
  decide

theorem pad3_lt_of_lt (i j : Nat) (hij : i < j) (hj : j < 1000) :
    lexLt (padStart3 (natStr i)).data (padStart3 (natStr j)).data = true := by
  induction j with
  | zero => cases hij
  | succ k ih =>
    rcases Nat.lt_succ_iff_lt_or_eq.mp hij with hlt | heq
    · exact lexLt_trans _ _ _ (ih hlt (by omega)) (pad3_succ_lt k (by omega))
    · subst heq
      exact pad3_succ_lt i (by omega)

/-- Keys of the sortText shape shared by the four tiers are strictly
increasing in the index, as long as the index stays below 1000. -/
theorem tierKey_lt (p : String) (i j : Nat) (ni nj : String) (hij : i < j) (hj : j < 1000) :
    lexLt (p ++ padStart3 (natStr i) ++ "_" ++ ni).data
      (p ++ padStart3 (natStr j) ++ "_" ++ nj).data = true := by
  have hshape : ∀ (m : Nat) (nm : String),
      (p ++ padStart3 (natStr m) ++ "_" ++ nm).data
        = p.data ++ ((padStart3 (natStr m)).data ++ ("_" ++ nm).data) := by
    intro m nm
    simp [List.append_assoc]
  rw [hshape i ni, hshape j nj]
  apply lexLt_append_left
  apply lexLt_append_of_lt
  · show (padStart3 (natStr i)).length = (padStart3 (natStr j)).length
    rw [pad3_length i (by omega), pad3_length j hj]
  · exact pad3_lt_of_lt i j hij hj

/-- A tier built by `mapWithIdx` with keys of the shared shape is
strictly key-ordered when it holds at most 1000 items. -/
theorem tier_pairwise {α : Type} (f : Nat → α → Suggestion) (l : List α) (p : String)
    (hlen : l.length ≤ 1000)
    (hkey : ∀ (i : Nat) (x : α), ∃ nm, (f i x).sortText
      = p ++ padStart3 (natStr i) ++ "_" ++ nm) :
    (mapWithIdx f 0 l).Pairwise keyLt := by
  rw [List.pairwise_iff_getElem]
  intro i j hi hj hij
  rw [mapWithIdx_length] at hi hj
  rw [mapWithIdx_getElem f 0 l i hi (by rw [mapWithIdx_length]; exact hi),
    mapWithIdx_getElem f 0 l j hj (by rw [mapWithIdx_length]; exact hj)]
  rcases hkey (0 + i) (l[i]) with ⟨ni, hni⟩
  rcases hkey (0 + j) (l[j]) with ⟨nj, hnj⟩
  unfold keyLt
  rw [hni, hnj]
  simp only [Nat.zero_add]
  exact tierKey_lt p i j ni nj hij (by omega)

theorem localFn_shape (idx : SymbolIndex) (s : Suggestion)
    (h : s ∈ localFnSuggestions idx) : ∃ r, s.sortText.data = '1' :: '_' :: r := by
  rcases mem_mapWithIdx _ 0 _ s h with ⟨i, hi, heq⟩
  refine ⟨(padStart3 (natStr (0 + i))).data ++ '_' :: (idx.functions[i].1).data, ?_⟩
  rw [heq]
  show ("1_" ++ padStart3 (natStr (0 + i)) ++ "_" ++ idx.functions[i].1).data = _
  simp [List.append_assoc]

theorem classTier_shape (b : ParsedBuiltins) (s : Suggestion)
    (h : s ∈ classSuggestions b) : ∃ r, s.sortText.data = '1' :: 'a' :: r := by
  rcases mem_mapWithIdx _ 0 _ s h with ⟨i, hi, heq⟩
  refine ⟨'_' :: ((padStart3 (natStr (0 + i))).data ++ '_' :: (b.classNames[i]).data), ?_⟩
  rw [heq]
  show ("1a_" ++ padStart3 (natStr (0 + i)) ++ "_" ++ b.classNames[i]).data = _
  simp [List.append_assoc]

theorem builtinFn_shape (b : ParsedBuiltins) (s : Suggestion)
    (h : s ∈ builtinFnSuggestions b) : ∃ r, s.sortText.data = '2' :: '_' :: r := by
  rcases mem_mapWithIdx _ 0 _ s h with ⟨i, hi, heq⟩
  refine ⟨(padStart3 (natStr (0 + i))).data ++ '_' :: (b.functions[i].1).data, ?_⟩
  rw [heq]
  show ("2_" ++ padStart3 (natStr (0 + i)) ++ "_" ++ b.functions[i].1).data = _
  simp [List.append_assoc]

theorem constantTier_shape (b : ParsedBuiltins) (s : Suggestion)
    (h : s ∈ constantSuggestions b) : ∃ r, s.sortText.data = '3' :: '_' :: r := by
  rcases mem_mapWithIdx _ 0 _ s h with ⟨i, hi, heq⟩
  refine ⟨(padStart3 (natStr (0 + i))).data ++ '_' :: (b.constants[i].1).data, ?_⟩
  rw [heq]
  show ("3_" ++ padStart3 (natStr (0 + i)) ++ "_" ++ b.constants[i].1).data = _
  simp [List.append_assoc]

theorem topLevel_of_taken (b : ParsedBuiltins) (idx : SymbolIndex) (lp : String)
    (htop : topLevelTaken b idx lp = true) :
    provideCompletionItems b idx lp = topLevelSuggestions b idx := by
  unfold topLevelTaken at htop
  unfold provideCompletionItems
  rcases hm : memberMatch (trimEndJS lp.data) with - | id
  · simp only [hm]
  · simp only [hm] at htop ⊢
    simp only [Bool.and_eq_true, Bool.not_eq_true', Bool.or_eq_false_iff,
      decide_eq_false_iff_not, Option.isNone_iff_eq_none] at htop
    rcases hv : varTypeOf idx id with - | - | - | - | -
    · exact absurd hv htop.1.1.1
    · exact absurd hv htop.1.1.2
    · exact absurd hv htop.1.2
    · simp only [hv, htop.2]
    · simp only [hv, htop.2]

/-- C6 as amended: a completion query answered by the top-level branch
returns, unconditionally, the concatenation, in this order, of local
document functions, catalog class names, catalog functions and catalog
constants, each tier in its own declaration/iteration order, and every
item of an earlier tier sorts strictly before every item of a later
tier; within each tier the sort keys strictly increase provided that
tier holds at most 1000 items (beyond index 999 the 3-wide zero padding
of the per-tier index no longer aligns digit positions: the key of
index 1000 sorts before the key of index 999, which is what the
counterexample exhibits); when all four tiers satisfy the bound, the
whole answer is strictly key-ordered. -/
theorem c6_tiered_sort_keys (b : ParsedBuiltins) (idx : SymbolIndex) (lp : String)
    (htop : topLevelTaken b idx lp = true) :
    provideCompletionItems b idx lp
        = localFnSuggestions idx ++ classSuggestions b ++ builtinFnSuggestions b
          ++ constantSuggestions b
      ∧ crossTierOrdered b idx
      ∧ (idx.functions.length ≤ 1000 → (localFnSuggestions idx).Pairwise keyLt)
      ∧ (b.classNames.length ≤ 1000 → (classSuggestions b).Pairwise keyLt)
      ∧ (b.functions.length ≤ 1000 → (builtinFnSuggestions b).Pairwise keyLt)
      ∧ (b.constants.length ≤ 1000 → (constantSuggestions b).Pairwise keyLt)
      ∧ (idx.functions.length ≤ 1000 → b.classNames.length ≤ 1000 →
          b.functions.length ≤ 1000 → b.constants.length ≤ 1000 →
          (provideCompletionItems b idx lp).Pairwise keyLt) := by
  have heq := topLevel_of_taken b idx lp htop
  have hc01 : ∀ s ∈ localFnSuggestions idx, ∀ t ∈ classSuggestions b, keyLt s t := by
    intro s hs t ht
    rcases localFn_shape idx s hs with ⟨r1, hr1⟩
    rcases classTier_shape b t ht with ⟨r2, hr2⟩
    unfold keyLt
    rw [hr1, hr2]
    exact lexLt_cross '1' '_' '1' 'a' r1 r2 (by decide)
  have hc02 : ∀ s ∈ localFnSuggestions idx, ∀ t ∈ builtinFnSuggestions b, keyLt s t := by
    intro s hs t ht
    rcases localFn_shape idx s hs with ⟨r1, hr1⟩
    rcases builtinFn_shape b t ht with ⟨r2, hr2⟩
    unfold keyLt
    rw [hr1, hr2]
    exact lexLt_cross '1' '_' '2' '_' r1 r2 (by decide)
  have hc03 : ∀ s ∈ localFnSuggestions idx, ∀ t ∈ constantSuggestions b, keyLt s t := by
    intro s hs t ht
    rcases localFn_shape idx s hs with ⟨r1, hr1⟩
    rcases constantTier_shape b t ht with ⟨r2, hr2⟩
    unfold keyLt
    rw [hr1, hr2]
    exact lexLt_cross '1' '_' '3' '_' r1 r2 (by decide)
  have hc12 : ∀ s ∈ classSuggestions b, ∀ t ∈ builtinFnSuggestions b, keyLt s t := by
    intro s hs t ht
    rcases classTier_shape b s hs with ⟨r1, hr1⟩
    rcases builtinFn_shape b t ht with ⟨r2, hr2⟩
    unfold keyLt
    rw [hr1, hr2]
    exact lexLt_cross '1' 'a' '2' '_' r1 r2 (by decide)
  have hc13 : ∀ s ∈ classSuggestions b, ∀ t ∈ constantSuggestions b, keyLt s t := by
    intro s hs t ht
    rcases classTier_shape b s hs with ⟨r1, hr1⟩
    rcases constantTier_shape b t ht with ⟨r2, hr2⟩
    unfold keyLt
    rw [hr1, hr2]
    exact lexLt_cross '1' 'a' '3' '_' r1 r2 (by decide)
  have hc23 : ∀ s ∈ builtinFnSuggestions b, ∀ t ∈ constantSuggestions b, keyLt s t := by
    intro s hs t ht
    rcases builtinFn_shape b s hs with ⟨r1, hr1⟩
    rcases constantTier_shape b t ht with ⟨r2, hr2⟩
    unfold keyLt
    rw [hr1, hr2]
    exact lexLt_cross '2' '_' '3' '_' r1 r2 (by decide)
  refine ⟨heq, ⟨fun s hs => ⟨hc01 s hs, hc02 s hs, hc03 s hs⟩,
      fun s hs => ⟨hc12 s hs, hc13 s hs⟩, hc23⟩, ?_, ?_, ?_, ?_, ?_⟩
  · intro h0
    exact tier_pairwise _ idx.functions ("1_") h0 (fun i x => ⟨x.1, rfl⟩)
  · intro h1
    exact tier_pairwise _ b.classNames ("1a_") h1 (fun i x => ⟨x, rfl⟩)
  · intro h2
    exact tier_pairwise _ b.functions ("2_") h2 (fun i x => ⟨x.1, rfl⟩)
  · intro h3
    exact tier_pairwise _ b.constants ("3_") h3 (fun i x => ⟨x.1, rfl⟩)
  · intro h0 h1 h2 h3
    rw [heq]
    unfold topLevelSuggestions
    rw [List.pairwise_append, List.pairwise_append, List.pairwise_append]
    refine ⟨⟨⟨?_, ?_, hc01⟩, ?_, ?_⟩, ?_, ?_⟩
    · exact tier_pairwise _ idx.functions ("1_") h0 (fun i x => ⟨x.1, rfl⟩)
    · exact tier_pairwise _ b.classNames ("1a_") h1 (fun i x => ⟨x, rfl⟩)
    · exact tier_pairwise _ b.functions ("2_") h2 (fun i x => ⟨x.1, rfl⟩)
    · intro s hs t ht
      rcases List.mem_append.mp hs with hs1 | hs2
      · exact hc02 s hs1 t ht
      · exact hc12 s hs2 t ht
    · exact tier_pairwise _ b.constants ("3_") h3 (fun i x => ⟨x.1, rfl⟩)
    · intro s hs t ht
      rcases List.mem_append.mp hs with hs1 | hs3
      · rcases List.mem_append.mp hs1 with hs1a | hs1b
        · exact hc03 s hs1a t ht
        · exact hc13 s hs1b t ht
      · exact hc23 s hs3 t ht

set_option maxRecDepth 40000 in
/-- C6 counterexample: with 1001 local functions the within-tier keys
are not strictly increasing — the key at tier position 1000
(`1_1000_f1000`) sorts strictly before the key at position 999
(`1_999_f999`), because zero padding to width 3 no longer aligns the
digits. -/
theorem c6_counterexample :
    ((provideCompletionItems catalogEmpty bigIdx ("")).map (fun s => s.sortText)).get? 999
        = some ("1_999_f999")
      ∧ ((provideCompletionItems catalogEmpty bigIdx ("")).map (fun s => s.sortText)).get? 1000
        = some ("1_1000_f1000")
      ∧ lexLt ("1_999_f999").data ("1_1000_f1000").data = false
      ∧ lexLt ("1_1000_f1000").data ("1_999_f999").data = true := by
  refine ⟨?_, ?_, ?_, ?_⟩ <;> decide

theorem c6_witness :
    topLevelTaken catalogA (buildSymbolIndex docFoo) ("") = true
      ∧ provideCompletionItems catalogA (buildSymbolIndex docFoo) ("")
        = localFnSuggestions (buildSymbolIndex docFoo) ++ classSuggestions catalogA
          ++ builtinFnSuggestions catalogA ++ constantSuggestions catalogA
      ∧ crossTierOrdered catalogA (buildSymbolIndex docFoo)
      ∧ (provideCompletionItems catalogA (buildSymbolIndex docFoo) ("")).Pairwise keyLt :=
  ⟨by rfl,
   (c6_tiered_sort_keys catalogA (buildSymbolIndex docFoo) ("") (by rfl)).1,
   (c6_tiered_sort_keys catalogA (buildSymbolIndex docFoo) ("") (by rfl)).2.1,
   (c6_tiered_sort_keys catalogA (buildSymbolIndex docFoo) ("") (by rfl)).2.2.2.2.2.2
     (by decide) (by decide) (by decide) (by decide)⟩

/-! ## Claim C7: debounce coalescing -/

theorem afterChanges_spec (ts : List String) (s : DebounceState) (t : String)
    (h : ts.getLast? = some t) :
    afterChanges s ts
      = { s with
          text := t
          pending := some (s.nextId + ts.length - 1)
          nextId := s.nextId + ts.length } := by
  induction ts generalizing s with
  | nil => cases h
  | cons t0 rest ih =>
    cases rest with
    | nil =>
      have ht : t = t0 := by
        simp [List.getLast?] at h
        exact h.symm
      subst ht
      show debounceStep s (DocEvent.change t) = _
      cases s
      simp [debounceStep]
    | cons r rs =>
      have h2 : (r :: rs).getLast? = some t := by
        rw [List.getLast?_cons_cons] at h
        exact h
      have step1 : afterChanges s (t0 :: r :: rs)
          = afterChanges (debounceStep s (DocEvent.change t0)) (r :: rs) := rfl
      rw [step1, ih (debounceStep s (DocEvent.change t0)) h2]
      cases s
      simp only [debounceStep, List.length_cons, DebounceState.mk.injEq]
      refine ⟨trivial, ?_, ?_, trivial, trivial⟩
      · congr 1
        omega
      · omega

/-- C7: a burst of content-change notifications for one document, all
within the quiet period (no timer expiry among them), performs no
rebuild by itself and leaves exactly the timer armed by the last
notification pending; the expiry of any other (cancelled) timer is a
no-op; the expiry of that last timer performs exactly one rebuild, of
the text carried by the last notification, and installs it as the
document's index. -/
theorem c7_debounce_coalescing (s : DebounceState) (ts : List String) (t : String)
    (h : ts.getLast? = some t) :
    (afterChanges s ts).built = s.built
      ∧ (afterChanges s ts).pending = some (lastTimerId s ts)
      ∧ (∀ i, i ≠ lastTimerId s ts →
          debounceStep (afterChanges s ts) (DocEvent.elapse i) = afterChanges s ts)
      ∧ (debounceStep (afterChanges s ts) (DocEvent.elapse (lastTimerId s ts))).built
        = s.built ++ [buildSymbolIndex t]
      ∧ rfind? (debounceStep (afterChanges s ts) (DocEvent.elapse (lastTimerId s ts))).indexes
          docKey = some (buildSymbolIndex t) := by
  rw [afterChanges_spec ts s t h]
  obtain ⟨tx, pd, ni, ix, bl⟩ := s
  refine ⟨rfl, rfl, ?_, ?_, ?_⟩
  · intro i hi
    have hne : ¬ (some (ni + ts.length - 1) = some i) := by
      intro hc
      exact hi (Option.some.inj hc).symm
    simp [debounceStep, hne]
  · simp [debounceStep, lastTimerId]
  · simp [debounceStep, lastTimerId, rfind?_rset]

theorem c7_witness :
    burst3.getLast? = some ("x = []")
      ∧ (afterChanges dState0 burst3).built = dState0.built
      ∧ (debounceStep (afterChanges dState0 burst3)
          (DocEvent.elapse (lastTimerId dState0 burst3))).built
        = dState0.built ++ [buildSymbolIndex ("x = []")] :=
  ⟨by rfl, (c7_debounce_coalescing dState0 burst3 ("x = []") (by rfl)).1,
   (c7_debounce_coalescing dState0 burst3 ("x = []") (by rfl)).2.2.2.1⟩

/-! ## Claim C9: brace set literals are never inferred -/

theorem dropWhile_of_exists_not {p : Char → Bool} (l : List Char)
    (h : ∃ c ∈ l, p c = false) :
    ∃ c cs, l.dropWhile p = c :: cs ∧ p c = false ∧ c ∈ l := by
  induction l with
  | nil =>
    rcases h with ⟨c, hc, -⟩
    cases hc
  | cons a as ih =>
    by_cases ha : p a = true
    · have h2 : ∃ c ∈ as, p c = false := by
        rcases h with ⟨c, hc, hpc⟩
        rcases List.mem_cons.mp hc with heq | hmem
        · rw [heq] at hpc
          rw [ha] at hpc
          cases hpc
        · exact ⟨c, hmem, hpc⟩
      rcases ih h2 with ⟨c, cs, hdrop, hpc, hmem⟩
      refine ⟨c, cs, ?_, hpc, List.mem_cons_of_mem a hmem⟩
      simp [List.dropWhile, ha, hdrop]
    · have ha2 : p a = false := by
        cases hpa : p a
        · rfl
        · exact absurd hpa ha
      refine ⟨a, as, ?_, ha2, List.mem_cons_self a as⟩
      simp [List.dropWhile, ha2]

theorem dropWhile_append_of_ne_nil {p : Char → Bool} (l r : List Char)
    (h : l.dropWhile p ≠ []) :
    (l ++ r).dropWhile p = l.dropWhile p ++ r := by
  induction l with
  | nil => exact absurd rfl h
  | cons a as ih =>
    by_cases ha : p a = true
    · have h2 : as.dropWhile p ≠ [] := by
        intro hnil
        apply h
        simp [List.dropWhile, ha, hnil]
      simp [List.dropWhile, ha, ih h2]
    · have ha2 : p a = false := by
        cases hpa : p a
        · rfl
        · exact absurd hpa ha
      simp [List.dropWhile, ha2]

theorem contains_eq_false_of_forall (l : List Char) (a : Char) (h : ∀ c ∈ l, c ≠ a) :
    l.contains a = false := by
  induction l with
  | nil => rfl
  | cons c cs ih =>
    have h1 : c ≠ a := h c (List.mem_cons_self c cs)
    have h2 := ih (fun d hd => h d (List.mem_cons_of_mem c hd))
    simp [List.contains] at h2 ⊢
    exact ⟨fun hh => h1 hh.symm, h2⟩

theorem scanAux_no_term {α : Type} (try1 : List Char → Option (α × Nat)) (fuel : Nat)
    (cs : List Char) (h : ∀ c ∈ cs, isLineTerm c = false) :
    scanAux try1 fuel cs false = [] := by
  induction fuel generalizing cs with
  | zero => cases cs <;> rfl
  | succ n ih =>
    cases cs with
    | nil => rfl
    | cons c rest =>
      show scanAux try1 (n + 1) (c :: rest) false = []
      simp only [scanAux, if_neg, Bool.false_eq_true, not_false_iff]
      rw [h c (List.mem_cons_self c rest)]
      exact ih rest (fun d hd => h d (List.mem_cons_of_mem c hd))

theorem scanA_single_fail {α : Type} (try1 : List Char → Option (α × Nat)) (c : Char)
    (cs : List Char) (h1 : try1 (c :: cs) = none) (h2 : isLineTerm c = false)
    (h3 : ∀ d ∈ cs, isLineTerm d = false) :
    scanA try1 (c :: cs) true = [] := by
  show scanAux try1 (cs.length + 1) (c :: cs) true = []
  simp only [scanAux, if_pos, h1]
  rw [h2]
  exact scanAux_no_term try1 cs.length cs h3

/-- The document line considered by claim C9: `x = {` body `}`. -/
def braceLine (body : List Char) : List Char :=
  'x' :: ' ' :: '=' :: ' ' :: '\x7b' :: (body ++ ['\x7d'])

theorem braceLine_no_term (body : List Char) (hn : ∀ c ∈ body, isLineTerm c = false) :
    ∀ d ∈ ' ' :: '=' :: ' ' :: '\x7b' :: (body ++ ['\x7d']), isLineTerm d = false := by
  intro d hd
  simp only [List.mem_cons, List.mem_append] at hd
  rcases hd with h | h | h | h | h | h | h
  · rw [h]; rfl
  · rw [h]; rfl
  · rw [h]; rfl
  · rw [h]; rfl
  · exact hn d h
  · rw [h]; rfl
  · cases h

theorem pDictEmpty_braceLine (body : List Char) (hb : ∀ c ∈ body, c ≠ '\x7d')
    (hw : ∃ c ∈ body, isSpaceJS c = false) :
    pDictEmpty (braceLine body) = none := by
  show (match pChar '\x7d' (pWs (body ++ ['\x7d'])) with
        | none => none
        | some r2 => (pWsDollar r2 none).map (fun rest => (("x" : String), rest))) = none
  rcases dropWhile_of_exists_not body hw with ⟨c, cs, hdrop, hpc, hmem⟩
  have hne : body.dropWhile isSpaceJS ≠ [] := by rw [hdrop]; intro hcon; cases hcon
  have : pWs (body ++ ['\x7d']) = c :: (cs ++ ['\x7d']) := by
    show (body ++ ['\x7d']).dropWhile isSpaceJS = _
    rw [dropWhile_append_of_ne_nil body ['\x7d'] hne, hdrop]
    rfl
  rw [this]
  have hcne : (c = '\x7d') = False := by
    simp [hb c hmem]
  simp [pChar, hcne]

theorem pDictNonempty_braceLine (body : List Char) (hc : ∀ c ∈ body, c ≠ ':') :
    pDictNonempty (braceLine body) = none := by
  show (if ((body ++ ['\x7d']).takeWhile (fun c => c ≠ '\x7d')).contains ':' then _ else none)
      = none
  rw [if_neg]
  intro hcontains
  have hsub : ∀ c ∈ (body ++ ['\x7d']).takeWhile (fun c => c ≠ '\x7d'), c ≠ ':' := by
    intro c hcmem
    have hmem2 : c ∈ body ++ ['\x7d'] :=
      (List.takeWhile_sublist (fun c => decide (c ≠ '\x7d'))).subset hcmem
    rcases List.mem_append.mp hmem2 with hmb | hms
    · exact hc c hmb
    · have hpc := List.mem_takeWhile_imp hcmem
      rw [List.mem_singleton.mp hms] at hpc
      simp at hpc
  rw [contains_eq_false_of_forall _ ':' hsub] at hcontains
  cases hcontains

/-- C9: an assignment of a non-empty brace literal containing no colon
(such as `x = {1, 2}`) matches none of the inference patterns — the
non-empty dict pattern demands a colon before the first closing brace,
the empty dict pattern tolerates only whitespace between the braces, and
`set` is only ever produced by the `set(` constructor pattern or a `set`
annotation, neither of which this line contains — so the whole index of
the line is empty, the identifier stays absent from the variable map,
and lookups treat it as `unknown`: a Python set literal written with
braces is never inferred as type `set`. -/
theorem c9_brace_literal (body : List Char) (hc : ∀ c ∈ body, c ≠ ':')
    (hb : ∀ c ∈ body, c ≠ '\x7d') (hn : ∀ c ∈ body, isLineTerm c = false)
    (hw : ∃ c ∈ body, isSpaceJS c = false) :
    buildSymbolIndexL (braceLine body) = emptyIdx
      ∧ varTypeOf (buildSymbolIndexL (braceLine body)) ("x") = CoreType.unknown := by
  have hterm := braceLine_no_term body hn
  have hdefs : defCaptures (braceLine body) = [] :=
    scanA_single_fail (tryOf pDefIndex) 'x'
      (' ' :: '=' :: ' ' :: '\x7b' :: (body ++ ['\x7d'])) rfl rfl hterm
  have hann : annotPairs (braceLine body) = [] :=
    scanA_single_fail (tryOf pAnnot) 'x'
      (' ' :: '=' :: ' ' :: '\x7b' :: (body ++ ['\x7d'])) rfl rfl hterm
  have hle : listEmptyIds (braceLine body) = [] :=
    scanA_single_fail (tryOf pListEmpty) 'x'
      (' ' :: '=' :: ' ' :: '\x7b' :: (body ++ ['\x7d'])) rfl rfl hterm
  have hlne : listNonemptyIds (braceLine body) = [] :=
    scanA_single_fail (tryOf pListNonempty) 'x'
      (' ' :: '=' :: ' ' :: '\x7b' :: (body ++ ['\x7d'])) rfl rfl hterm
  have hlc : listCtorIds (braceLine body) = [] :=
    scanA_single_fail (tryOf (pCtorAssign ("list".data))) 'x'
      (' ' :: '=' :: ' ' :: '\x7b' :: (body ++ ['\x7d'])) rfl rfl hterm
  have hde1 : tryOf pDictEmpty (braceLine body) = none := by
    unfold tryOf
    rw [pDictEmpty_braceLine body hb hw]
    rfl
  have hde : dictEmptyIds (braceLine body) = [] :=
    scanA_single_fail (tryOf pDictEmpty) 'x'
      (' ' :: '=' :: ' ' :: '\x7b' :: (body ++ ['\x7d'])) hde1 rfl hterm
  have hdne1 : tryOf pDictNonempty (braceLine body) = none := by
    unfold tryOf
    rw [pDictNonempty_braceLine body hc]
    rfl
  have hdne : dictNonemptyIds (braceLine body) = [] :=
    scanA_single_fail (tryOf pDictNonempty) 'x'
      (' ' :: '=' :: ' ' :: '\x7b' :: (body ++ ['\x7d'])) hdne1 rfl hterm
  have hdc : dictCtorIds (braceLine body) = [] :=
    scanA_single_fail (tryOf (pCtorAssign ("dict".data))) 'x'
      (' ' :: '=' :: ' ' :: '\x7b' :: (body ++ ['\x7d'])) rfl rfl hterm
  have hsc : setCtorIds (braceLine body) = [] :=
    scanA_single_fail (tryOf (pCtorAssign ("set".data))) 'x'
      (' ' :: '=' :: ' ' :: '\x7b' :: (body ++ ['\x7d'])) rfl rfl hterm
  have hsl : strLitIds (braceLine body) = [] :=
    scanA_single_fail (tryOf pStrLit) 'x'
      (' ' :: '=' :: ' ' :: '\x7b' :: (body ++ ['\x7d'])) rfl rfl hterm
  have hstc : strCtorIds (braceLine body) = [] :=
    scanA_single_fail (tryOf (pCtorAssign ("str".data))) 'x'
      (' ' :: '=' :: ' ' :: '\x7b' :: (body ++ ['\x7d'])) rfl rfl hterm
  have hvars : varWrites (braceLine body) = [] := by
    unfold varWrites listIds dictIds setIds strIds
    rw [hann, hle, hlne, hlc, hde, hdne, hdc, hsc, hsl, hstc]
    rfl
  have hmain : buildSymbolIndexL (braceLine body) = emptyIdx := by
    simp only [buildSymbolIndexL]
    rw [hdefs, hvars]
    rfl
  exact ⟨hmain, by rw [hmain]; rfl⟩

theorem c9_witness :
    (∀ c ∈ ("1, 2").data, c ≠ ':')
      ∧ (∀ c ∈ ("1, 2").data, c ≠ '\x7d')
      ∧ (∀ c ∈ ("1, 2").data, isLineTerm c = false)
      ∧ (∃ c ∈ ("1, 2").data, isSpaceJS c = false)
      ∧ buildSymbolIndexL (braceLine ("1, 2").data) = emptyIdx
      ∧ varTypeOf (buildSymbolIndexL (braceLine ("1, 2").data)) ("x") = CoreType.unknown :=
  ⟨by decide, by decide, by decide, by decide,
   (c9_brace_literal ("1, 2").data (by decide) (by decide) (by decide) (by decide)).1,
   (c9_brace_literal ("1, 2").data (by decide) (by decide) (by decide) (by decide)).2⟩

theorem c1_witness :
    ((scanDotted ("  harvest ").data).find? (spansCol 4) = none
      ∧ provideHover catalogA ("  harvest ") 4 = hoverWordFallback catalogA ("  harvest ") 4
      ∧ hoverWordFallback catalogA ("  harvest ") 4
        = some { startCol := 3, endCol := 10, contents := ["harvest()", "Gather."] })
      ∧ ((scanDotted ("foo.harvest").data).find? (spansCol 6)
          = some { cls := "foo", member := "harvest", startCol := 1, endCol := 12 }
        ∧ lookupClassMember catalogA ("foo") ("harvest") = none
        ∧ provideHover catalogA ("foo.harvest") 6 = none) :=
  ⟨⟨by rfl, (c1_amended catalogA ("  harvest ") 4).1 (by rfl), by rfl⟩,
   ⟨by rfl, by rfl,
    (c1_amended catalogA ("foo.harvest") 6).2
      { cls := "foo", member := "harvest", startCol := 1, endCol := 12 } (by rfl) (by rfl)⟩⟩

end TFWR
